import Mathlib

/-!
Verification of the iCalendar text-format core of the `dav` repository
(`packages/web/src/ical.ts`).

JavaScript strings are modelled as `List Char`; the JS string operations
used by the source (`split` on a one-character separator, `startsWith`,
`trim`, `join`, `slice`, `padStart`, `toUpperCase`, `parseInt`) are given
faithful executable models below.  JS objects (`Record<string, unknown>`)
are modelled as insertion-ordered association lists with JS assignment
semantics (`objSet`: overwrite in place, else append).  JS runtime values
that can appear as property values are modelled by `JVal`: a string, the
`undefined` value, or an opaque other value carrying its truthiness and
its string coercion.  Note: the JS enumeration-order exception for
integer-like keys is not modelled; all keys of interest are property
names.
-/

namespace Dav

/-- Shorthand: the character list of a string literal. -/
def cs (s : String) : List Char := s.toList

/-- Model of JS `s.split(sep)` for a one-character separator: the list of
maximal separator-free groups; `"".split(sep)` is `[""]`. -/
def jsSplit (sep : Char) : List Char → List (List Char)
  | [] => [[]]
  | c :: rest =>
    match jsSplit sep rest with
    | [] => [[]]
    | g :: gs => if c = sep then [] :: g :: gs else (c :: g) :: gs

/-- Model of JS `Array.prototype.join` with a one-character separator. -/
def joinWith (sep : Char) : List (List Char) → List Char
  | [] => []
  | [g] => g
  | g :: g2 :: gs => g ++ sep :: joinWith sep (g2 :: gs)

/-- Model of JS `String.prototype.trim`: strip whitespace from both ends. -/
def jsTrim (s : List Char) : List Char :=
  ((s.dropWhile Char.isWhitespace).reverse.dropWhile Char.isWhitespace).reverse

/-- Model of JS `s.startsWith(p)`: `jsStartsWith p s` is true when `p` is
an initial segment of `s`. -/
def jsStartsWith : List Char → List Char → Bool
  | [], _ => true
  | _ :: _, [] => false
  | p :: ps, c :: rest => p == c && jsStartsWith ps rest

/-- Model of JS `s.slice(a, b)` for `0 ≤ a ≤ b`. -/
def jsSlice (s : List Char) (a b : Nat) : List Char := (s.drop a).take (b - a)

/-- Model of JS `s.padStart(w, "0")`. -/
def padTo (w : Nat) (s : List Char) : List Char :=
  if s.length < w then List.replicate (w - s.length) '0' ++ s else s

/-- Model of JS `s.toUpperCase()` (ASCII case mapping; no key of interest
uses non-ASCII letters). -/
def jsToUpper (s : List Char) : List Char := s.map Char.toUpper

/-- The six calendar components read from a JS `Date` by one family of
getters: `getUTCFullYear`/`getUTCMonth`(0-11)/`getUTCDate`/`getUTCHours`/
`getUTCMinutes`/`getUTCSeconds`, or their local-time counterparts. -/
structure DateComps where
  year : Int
  month : Int
  day : Int
  hours : Int
  minutes : Int
  seconds : Int
deriving DecidableEq, Repr

/-- Model of a JS `Date` as observed through its getters: either the
Invalid Date (all getters return NaN), or a pair of component tuples,
one for the UTC getters and one for the local-time getters.  The
relation between the two tuples (the host timezone) is carried
separately by `Tz`. -/
inductive JSDate where
  | invalid
  | mk (utc : DateComps) (loc : DateComps)
deriving DecidableEq, Repr

/-- Model of a JS runtime value: a string, `undefined`, a `Date` object
(carrying the host-dependent string rendering it would coerce to), or
any other value abstracted by its truthiness and its string coercion
(`other` covers exactly the values that are none of the former, so it
never denotes a `Date`). -/
inductive JVal where
  | str (s : List Char)
  | undef
  | date (d : JSDate) (coerced : List Char)
  | other (truthy : Bool) (coerced : List Char)
deriving DecidableEq, Repr

/-- JS truthiness of a `JVal` (every object, including a Date, is
truthy). -/
def jTruthy : JVal → Bool
  | JVal.str s => !s.isEmpty
  | JVal.undef => false
  | JVal.date _ _ => true
  | JVal.other t _ => t

/-- JS string coercion of a `JVal` (template-literal interpolation). -/
def jToStr : JVal → List Char
  | JVal.str s => s
  | JVal.undef => cs "undefined"
  | JVal.date _ r => r
  | JVal.other _ r => r

/-- Model of a JS `Record<string, unknown>`: an insertion-ordered
association list with unique keys (maintained by `objSet`). -/
abbrev Obj := List (List Char × JVal)

/-- JS property assignment `o[k] = v`: overwrite in place when the key
exists, otherwise append. -/
def objSet : Obj → List Char → JVal → Obj
  | [], k, v => [(k, v)]
  | (k0, v0) :: rest, k, v =>
    if k0 = k then (k0, v) :: rest else (k0, v0) :: objSet rest k v

/-- JS property read `o[k]`: `undefined` when the key is absent. -/
def objGet : Obj → List Char → JVal
  | [], _ => JVal.undef
  | (k0, v0) :: rest, k => if k0 = k then v0 else objGet rest k

/-- The `BEGIN:VEVENT` marker. -/
def BEGINV : List Char := cs "BEGIN:VEVENT"

/-- The `END:VEVENT` marker. -/
def ENDV : List Char := cs "END:VEVENT"

/-- One step of the `icalToWebDav` loop over a line: state is the open
block accumulator (`currentLine`) and the flushed blocks (`webDavLines`). -/
def extractStep (st : Option (List Char) × List (List Char)) (line : List Char) :
    Option (List Char) × List (List Char) :=
  if jsStartsWith BEGINV line then
    match st.1 with
    | some cur => (some line, st.2 ++ [cur])
    | none => (some line, st.2)
  else if jsStartsWith ENDV line then
    match st.1 with
    | some cur => (none, st.2 ++ [cur])
    | none => (none, st.2)
  else
    match st.1 with
    | some cur => (some (cur ++ '\n' :: line), st.2)
    | none => (none, st.2)

/-- The end-of-input flush of the `icalToWebDav` loop. -/
def flushBlocks (st : Option (List Char) × List (List Char)) : List (List Char) :=
  match st.1 with
  | some cur => st.2 ++ [cur]
  | none => st.2

/-- The list of blocks `icalToWebDav` joins into its result. -/
def icalToWebDavCore (lines : List (List Char)) : List (List Char) :=
  flushBlocks (lines.foldl extractStep (none, []))

/-- `ical.ts` `icalToWebDav`: extract VEVENT blocks (stripping each
`END:VEVENT` line, flushing on nested `BEGIN:VEVENT` and at end of
input) and join them with newlines.  `baseUrl` is accepted and unused,
as in the source. -/
def icalToWebDav (icalData baseUrl : List Char) : List Char :=
  joinWith '\n' (icalToWebDavCore (jsSplit '\n' icalData))

/-- One step of the `webDavToIcal` loop (the source duplicates the
`icalToWebDav` loop verbatim). -/
def wdExtractStep (st : Option (List Char) × List (List Char)) (line : List Char) :
    Option (List Char) × List (List Char) :=
  if jsStartsWith BEGINV line then
    match st.1 with
    | some cur => (some line, st.2 ++ [cur])
    | none => (some line, st.2)
  else if jsStartsWith ENDV line then
    match st.1 with
    | some cur => (none, st.2 ++ [cur])
    | none => (none, st.2)
  else
    match st.1 with
    | some cur => (some (cur ++ '\n' :: line), st.2)
    | none => (none, st.2)

/-- The end-of-input flush of the `webDavToIcal` loop. -/
def wdFlushBlocks (st : Option (List Char) × List (List Char)) : List (List Char) :=
  match st.1 with
  | some cur => st.2 ++ [cur]
  | none => st.2

/-- The list of blocks `webDavToIcal` joins into its result. -/
def webDavToIcalCore (lines : List (List Char)) : List (List Char) :=
  wdFlushBlocks (lines.foldl wdExtractStep (none, []))

/-- `ical.ts` `webDavToIcal`: a verbatim duplicate of `icalToWebDav`
without the unused `baseUrl` parameter. -/
def webDavToIcal (webDavData : List Char) : List Char :=
  joinWith '\n' (webDavToIcalCore (jsSplit '\n' webDavData))

/-- One step of the `parseIcal` loop over a line: state is the open
record (`currentEvent`) and the emitted records (`events`).  A
`BEGIN:VEVENT` line replaces the open record by a fresh empty one
(without flushing it); an `END:VEVENT` line pushes the open record;
any other line while a record is open is split at its first colon,
and stored when the untrimmed key and the trimmed value are both
non-empty. -/
def parseStep (st : Option Obj × List Obj) (line : List Char) : Option Obj × List Obj :=
  if jsStartsWith BEGINV line then
    (some [], st.2)
  else if jsStartsWith ENDV line then
    match st.1 with
    | some ev => (none, st.2 ++ [ev])
    | none => (none, st.2)
  else
    match st.1 with
    | some ev =>
      let parts := jsSplit ':' line
      let key := parts.headD []
      let value := jsTrim (joinWith ':' parts.tail)
      if key ≠ [] ∧ value ≠ [] then (some (objSet ev (jsTrim key) (JVal.str value)), st.2)
      else (some ev, st.2)
    | none => (none, st.2)

/-- The record list produced by the `parseIcal` loop; a record still open
at end of input is not flushed. -/
def parseIcalLines (lines : List (List Char)) : List Obj :=
  (lines.foldl parseStep (none, [])).2

/-- `ical.ts` `parseIcal`. -/
def parseIcal (icalData : List Char) : List Obj :=
  parseIcalLines (jsSplit '\n' icalData)

/-- One step of the `parseWebDav` loop (the source duplicates the
`parseIcal` loop verbatim). -/
def wdParseStep (st : Option Obj × List Obj) (line : List Char) : Option Obj × List Obj :=
  if jsStartsWith BEGINV line then
    (some [], st.2)
  else if jsStartsWith ENDV line then
    match st.1 with
    | some ev => (none, st.2 ++ [ev])
    | none => (none, st.2)
  else
    match st.1 with
    | some ev =>
      let parts := jsSplit ':' line
      let key := parts.headD []
      let value := jsTrim (joinWith ':' parts.tail)
      if key ≠ [] ∧ value ≠ [] then (some (objSet ev (jsTrim key) (JVal.str value)), st.2)
      else (some ev, st.2)
    | none => (none, st.2)

/-- The record list produced by the `parseWebDav` loop. -/
def parseWebDavLines (lines : List (List Char)) : List Obj :=
  (lines.foldl wdParseStep (none, [])).2

/-- `ical.ts` `parseWebDav`: a verbatim duplicate of `parseIcal`. -/
def parseWebDav (webDavData : List Char) : List Obj :=
  parseWebDavLines (jsSplit '\n' webDavData)

/-- The lines one record contributes to `icalToString`: `BEGIN:VEVENT`,
then one `KEY:value` line per entry whose key is non-empty and whose
value is truthy, then `END:VEVENT`. -/
def evLines (ev : Obj) : List (List Char) :=
  BEGINV ::
    (ev.filterMap fun kv =>
      if kv.1 ≠ [] ∧ jTruthy kv.2 then some (kv.1 ++ ':' :: jToStr kv.2) else none)
    ++ [ENDV]

/-- `ical.ts` `icalToString`. -/
def icalToString (icalData : List Obj) : List Char :=
  joinWith '\n' (icalData.map evLines).flatten

/-- The lines one record contributes to `webDavToString` (the source
duplicates `icalToString` verbatim). -/
def wdEvLines (ev : Obj) : List (List Char) :=
  BEGINV ::
    (ev.filterMap fun kv =>
      if kv.1 ≠ [] ∧ jTruthy kv.2 then some (kv.1 ++ ':' :: jToStr kv.2) else none)
    ++ [ENDV]

/-- `ical.ts` `webDavToString`: a verbatim duplicate of `icalToString`. -/
def webDavToString (webDavData : List Obj) : List Char :=
  joinWith '\n' (webDavData.map wdEvLines).flatten

/-- The host environment, abstracted as the two conversions a JS engine
applies between an instant's UTC decomposition and its local-time
decomposition, plus the host-dependent `Date.prototype.toString`
rendering. -/
structure Tz where
  utcToLoc : DateComps → DateComps
  locToUtc : DateComps → DateComps
  dateToString : JSDate → List Char

/-- The UTC getters of a `JSDate` (`none` models NaN). -/
def getUTCComps : JSDate → Option DateComps
  | JSDate.invalid => none
  | JSDate.mk u _ => some u

/-- The local-time getters of a `JSDate` (`none` models NaN). -/
def getLocComps : JSDate → Option DateComps
  | JSDate.invalid => none
  | JSDate.mk _ l => some l

/-- A decimal digit character. -/
def digitChar : Nat → Char
  | 0 => '0'
  | 1 => '1'
  | 2 => '2'
  | 3 => '3'
  | 4 => '4'
  | 5 => '5'
  | 6 => '6'
  | 7 => '7'
  | 8 => '8'
  | 9 => '9'
  | _ => '*'

/-- Fuel-driven digit production; with fuel above `n` this computes the
decimal digits of `n`, most significant first. -/
def natDigitsAux : Nat → Nat → List Char
  | 0, _ => []
  | fuel + 1, n =>
    if n < 10 then [digitChar n]
    else natDigitsAux fuel (n / 10) ++ [digitChar (n % 10)]

/-- The decimal digits of a natural number, most significant first
(model of JS `Number.prototype.toString` on non-negative integers). -/
def natDigits (n : Nat) : List Char := natDigitsAux (n + 1) n

/-- Model of JS `Number.prototype.toString` on integer values. -/
def intToJStr (n : Int) : List Char :=
  if n < 0 then '-' :: natDigits (-n).toNat else natDigits n.toNat

/-- Model of JS number-to-string coercion on an integer-or-NaN value. -/
def numStr : Option Int → List Char
  | none => cs "NaN"
  | some n => intToJStr n

/-- Numeric value of a decimal digit character. -/
def digitVal (c : Char) : Nat := c.toNat - 48

/-- The natural number denoted by a list of decimal digit characters. -/
def digitsToNat (ds : List Char) : Nat :=
  ds.foldl (fun acc c => acc * 10 + digitVal c) 0

/-- Leading decimal-digit run of a string as a number; `none` when the
string does not start with a digit. -/
def parseDigits (s : List Char) : Option Nat :=
  match s.takeWhile Char.isDigit with
  | [] => none
  | ds => some (digitsToNat ds)

/-- Sign-and-digit-run part of `jsParseInt`, applied after whitespace
has been skipped. -/
def jsParseIntCore : List Char → Option Int
  | [] => none
  | c :: rest =>
    if c = '-' then (parseDigits rest).map (fun n => -(n : Int))
    else if c = '+' then (parseDigits rest).map (fun n => (n : Int))
    else (parseDigits (c :: rest)).map (fun n => (n : Int))

/-- Model of JS `Number.parseInt(s, 10)` (`none` models NaN): skip
leading whitespace, read an optional sign, then the leading digit run. -/
def jsParseInt (s : List Char) : Option Int :=
  jsParseIntCore (s.dropWhile Char.isWhitespace)

/-- `ical.ts` `formatToIcalDateTime`: render the local-time getters as
`YYYYMMDDTHHMMSS` when `timezone` is true, else the UTC getters as
`YYYYMMDDTHHMMSSZ`.  The year is rendered by `toString` with no
padding; the other five components are `padStart(2, "0")`-padded. -/
def formatToIcalDateTime (date : JSDate) (timezone : Bool := false) : List Char :=
  if timezone then
    numStr ((getLocComps date).map DateComps.year)
      ++ padTo 2 (numStr ((getLocComps date).map (fun c => c.month + 1)))
      ++ padTo 2 (numStr ((getLocComps date).map DateComps.day))
      ++ 'T' :: (padTo 2 (numStr ((getLocComps date).map DateComps.hours))
      ++ padTo 2 (numStr ((getLocComps date).map DateComps.minutes))
      ++ padTo 2 (numStr ((getLocComps date).map DateComps.seconds)))
  else
    numStr ((getUTCComps date).map DateComps.year)
      ++ padTo 2 (numStr ((getUTCComps date).map (fun c => c.month + 1)))
      ++ padTo 2 (numStr ((getUTCComps date).map DateComps.day))
      ++ 'T' :: (padTo 2 (numStr ((getUTCComps date).map DateComps.hours))
      ++ padTo 2 (numStr ((getUTCComps date).map DateComps.minutes))
      ++ padTo 2 (numStr ((getUTCComps date).map DateComps.seconds))
      ++ ['Z'])

/-- Model of the year adjustment `Date.UTC` and the `Date` constructor
apply: integer years 0 to 99 denote 1900 to 1999.  JS normalization of
out-of-range month, day or time-of-day components is not modelled;
every theorem below restricts these components to calendar-valid
ranges (`ValidComps`), on which the construction is the identity up to
this year adjustment. -/
def normYear (c : DateComps) : DateComps :=
  if 0 ≤ c.year ∧ c.year ≤ 99 then
    DateComps.mk (c.year + 1900) c.month c.day c.hours c.minutes c.seconds
  else c

/-- Model of `new Date(Date.UTC(y, mo, d, h, mi, s))`: Invalid Date when
any component is NaN; otherwise the instant with the given UTC
decomposition (after the year adjustment), whose local getters are
determined by the host timezone. -/
def newDateUTC (tz : Tz) (y mo d h mi s : Option Int) : JSDate :=
  match y, mo, d, h, mi, s with
  | some y, some mo, some d, some h, some mi, some s =>
    let u := normYear (DateComps.mk y mo d h mi s)
    JSDate.mk u (tz.utcToLoc u)
  | _, _, _, _, _, _ => JSDate.invalid

/-- Model of `new Date(y, mo, d, h, mi, s)` (local-time constructor):
Invalid Date when any component is NaN; otherwise the instant whose
local decomposition is the given one (after the year adjustment). -/
def newDateLocal (tz : Tz) (y mo d h mi s : Option Int) : JSDate :=
  match y, mo, d, h, mi, s with
  | some y, some mo, some d, some h, some mi, some s =>
    let l := normYear (DateComps.mk y mo d h mi s)
    JSDate.mk (tz.locToUtc l) l
  | _, _, _, _, _, _ => JSDate.invalid

/-- `ical.ts` `parseIcalDateTime`: `undefined` input or the empty string
gives `undefined`; otherwise year, month and day are read from fixed
offsets, time-of-day from offsets 9-15 when a `T` sits at offset 8,
and a trailing `Z` selects the UTC constructor over the local one. -/
def parseIcalDateTime (tz : Tz) (dateTimeStr : Option (List Char)) : Option JSDate :=
  match dateTimeStr with
  | none => none
  | some s =>
    if s = [] then none
    else
      let year := jsParseInt (jsSlice s 0 4)
      let month := (jsParseInt (jsSlice s 4 6)).map (fun m => m - 1)
      let day := jsParseInt (jsSlice s 6 8)
      let hms :=
        if 8 < s.length ∧ s[8]? = some 'T' then
          (jsParseInt (jsSlice s 9 11), jsParseInt (jsSlice s 11 13),
            jsParseInt (jsSlice s 13 15))
        else (some 0, some 0, some 0)
      if s.getLast? = some 'Z' then
        some (newDateUTC tz year month day hms.1 hms.2.1 hms.2.2)
      else
        some (newDateLocal tz year month day hms.1 hms.2.1 hms.2.2)

/-- Model of the runtime Event object: a JS property bag viewed through
the six field names of the `Event` interface plus the open-ended
custom fields in insertion order.  Every field holds a runtime value
(`JVal`): the TS types are not enforced at runtime - e.g.
`mapIcalObjectToEvent` stores the `undefined` that `parseIcalDateTime`
returns on an empty date string, and its custom-field copy loop can
overwrite any named field with an arbitrary record value.  `undef`
stands for an absent (or `undefined`-valued) property, which this
code never distinguishes. -/
structure Event where
  id : JVal
  summary : JVal
  start : JVal
  end_ : JVal
  location : JVal
  description : JVal
  extra : List (List Char × JVal)
deriving DecidableEq, Repr

/-- Is this value a JS string? (`typeof v === "string"`). -/
def isStr : JVal → Bool
  | JVal.str _ => true
  | _ => false

/-- Is this value a JS string or `undefined`? -/
def isStrOrUndef : JVal → Bool
  | JVal.str _ => true
  | JVal.undef => true
  | _ => false

/-- The string carried by a `JVal.str` (unused fallback otherwise). -/
def strValD : JVal → List Char
  | JVal.str s => s
  | _ => []

/-- The six property names `mapIcalObjectToEvent` maps to named Event
fields; every other record key is copied verbatim as a custom field. -/
def reservedKeys : List (List Char) :=
  [cs "UID", cs "SUMMARY", cs "DTSTART", cs "DTEND", cs "LOCATION", cs "DESCRIPTION"]

/-- The six Event field names `mapEventToIcalObject` excludes from the
custom-field copy. -/
def namedFields : List (List Char) :=
  [cs "id", cs "summary", cs "start", cs "end", cs "location", cs "description"]

/-- One JS property assignment `event[key] = value` on the runtime Event
object: a key equal to one of the six `Event` field names hits the
corresponding named field (overwriting whatever the mapping put
there); every other key goes to the custom-field part with JS
assignment semantics. -/
def assignEventField (e : Event) (k : List Char) (v : JVal) : Event :=
  if k = cs "id" then { e with id := v }
  else if k = cs "summary" then { e with summary := v }
  else if k = cs "start" then { e with start := v }
  else if k = cs "end" then { e with end_ := v }
  else if k = cs "location" then { e with location := v }
  else if k = cs "description" then { e with description := v }
  else { e with extra := objSet e.extra k v }

/-- The `Date | undefined` value `parseIcalDateTime` hands to an Event
field, as a runtime value (the Date carries the host's string
rendering). -/
def dateVal (tz : Tz) (d : Option JSDate) : JVal :=
  match d with
  | some d => JVal.date d (tz.dateToString d)
  | none => JVal.undef

/-- `ical.ts` `mapIcalObjectToEvent`: `none` models the thrown
`Invalid iCal object` error; otherwise `UID`/`SUMMARY` are assigned to
`id`/`summary`, `DTSTART`/`DTEND` are decoded via `parseIcalDateTime`,
`LOCATION`/`DESCRIPTION` are assigned only when truthy, and then every
non-reserved record key is assigned onto the same event object in
record order - so a record key named `id`, `summary`, `start`, `end`,
`location` or `description` overwrites the field the mapping set. -/
def mapIcalObjectToEvent (tz : Tz) (icalObj : Obj) : Option Event :=
  if isStr (objGet icalObj (cs "UID")) = true ∧
      isStr (objGet icalObj (cs "SUMMARY")) = true ∧
      isStr (objGet icalObj (cs "DTSTART")) = true ∧
      isStr (objGet icalObj (cs "DTEND")) = true ∧
      isStrOrUndef (objGet icalObj (cs "LOCATION")) = true ∧
      isStrOrUndef (objGet icalObj (cs "DESCRIPTION")) = true then
    some (icalObj.foldl
      (fun e kv => if kv.1 ∈ reservedKeys then e else assignEventField e kv.1 kv.2)
      (Event.mk
        (objGet icalObj (cs "UID"))
        (objGet icalObj (cs "SUMMARY"))
        (dateVal tz (parseIcalDateTime tz (some (strValD (objGet icalObj (cs "DTSTART"))))))
        (dateVal tz (parseIcalDateTime tz (some (strValD (objGet icalObj (cs "DTEND"))))))
        (if jTruthy (objGet icalObj (cs "LOCATION")) then
          objGet icalObj (cs "LOCATION") else JVal.undef)
        (if jTruthy (objGet icalObj (cs "DESCRIPTION")) then
          objGet icalObj (cs "DESCRIPTION") else JVal.undef)
        []))
  else none

/-- `ical.ts` `mapEventToIcalObject`: `none` models the TypeError JS
raises when `formatToIcalDateTime` is called on a `start`/`end` that
is not a `Date` object; otherwise the record is built in source order
(`UID` only when `id` is truthy, `SUMMARY` always, dates in UTC
format, `LOCATION`/`DESCRIPTION` only when truthy, then every custom
field with its key upper-cased). -/
def mapEventToIcalObject (event : Event) : Option Obj :=
  match event.start, event.end_ with
  | JVal.date ds _, JVal.date de _ =>
    let o : Obj := []
    let o := if jTruthy event.id then objSet o (cs "UID") event.id else o
    let o := objSet o (cs "SUMMARY") event.summary
    let o := objSet o (cs "DTSTART") (JVal.str (formatToIcalDateTime ds))
    let o := objSet o (cs "DTEND") (JVal.str (formatToIcalDateTime de))
    let o := if jTruthy event.location then objSet o (cs "LOCATION") event.location else o
    let o :=
      if jTruthy event.description then objSet o (cs "DESCRIPTION") event.description else o
    some (event.extra.foldl (fun acc kv => objSet acc (jsToUpper kv.1) kv.2) o)
  | _, _ => none

/-- Whether a month index (0-11) in a year is a 31-day, 30-day or
February month, for the calendar-valid component ranges. -/
def daysInMonth (y : Int) (m : Int) : Int :=
  if m = 0 ∨ m = 2 ∨ m = 4 ∨ m = 6 ∨ m = 7 ∨ m = 9 ∨ m = 11 then 31
  else if m = 3 ∨ m = 5 ∨ m = 8 ∨ m = 10 then 30
  else if (y % 4 = 0 ∧ y % 100 ≠ 0) ∨ y % 400 = 0 then 29
  else 28

/-- A calendar-valid component tuple: what the getters of a real
(non-Invalid) JS `Date` can return. -/
def ValidComps (c : DateComps) : Prop :=
  0 ≤ c.month ∧ c.month ≤ 11 ∧ 1 ≤ c.day ∧ c.day ≤ daysInMonth c.year c.month ∧
    0 ≤ c.hours ∧ c.hours ≤ 23 ∧ 0 ≤ c.minutes ∧ c.minutes ≤ 59 ∧
    0 ≤ c.seconds ∧ c.seconds ≤ 59

instance (c : DateComps) : Decidable (ValidComps c) := by
  unfold ValidComps; infer_instance

/-- A concrete host environment (local time equal to UTC, and a fixed
Date rendering), used for concrete witnesses. -/
def tzId : Tz := Tz.mk id id (fun _ => [])

/-- Modelled from the spec: the date-time rendering the specification
describes, with every numeric component zero-padded to its fixed
width - 4 digits for the year, 2 digits for month, day, hour, minute
and second - with a trailing `Z` in the UTC rendering and none in the
local-time rendering. -/
def icalDateTimeSpecPadded (date : JSDate) (timezone : Bool) : List Char :=
  if timezone then
    padTo 4 (numStr ((getLocComps date).map DateComps.year))
      ++ padTo 2 (numStr ((getLocComps date).map (fun c => c.month + 1)))
      ++ padTo 2 (numStr ((getLocComps date).map DateComps.day))
      ++ 'T' :: (padTo 2 (numStr ((getLocComps date).map DateComps.hours))
      ++ padTo 2 (numStr ((getLocComps date).map DateComps.minutes))
      ++ padTo 2 (numStr ((getLocComps date).map DateComps.seconds)))
  else
    padTo 4 (numStr ((getUTCComps date).map DateComps.year))
      ++ padTo 2 (numStr ((getUTCComps date).map (fun c => c.month + 1)))
      ++ padTo 2 (numStr ((getUTCComps date).map DateComps.day))
      ++ 'T' :: (padTo 2 (numStr ((getUTCComps date).map DateComps.hours))
      ++ padTo 2 (numStr ((getUTCComps date).map DateComps.minutes))
      ++ padTo 2 (numStr ((getUTCComps date).map DateComps.seconds))
      ++ ['Z'])

/-! ### Properties of the string primitives -/

theorem jsSplit_ne_nil (sep : Char) : ∀ s : List Char, jsSplit sep s ≠ []
  | [] => by simp [jsSplit]
  | c :: rest => by
    have ih := jsSplit_ne_nil sep rest
    simp only [jsSplit]
    cases h : jsSplit sep rest with
    | nil => exact absurd h ih
    | cons g gs => by_cases hc : c = sep <;> simp [hc]

theorem jsSplit_append (sep : Char) (b : List Char) :
    ∀ a : List Char, jsSplit sep (a ++ sep :: b) = jsSplit sep a ++ jsSplit sep b
  | [] => by
    simp only [List.nil_append, jsSplit]
    cases h : jsSplit sep b with
    | nil => exact absurd h (jsSplit_ne_nil sep b)
    | cons g gs => simp
  | c :: a => by
    have ih : jsSplit sep (a.append (sep :: b)) = jsSplit sep a ++ jsSplit sep b :=
      jsSplit_append sep b a
    simp only [List.cons_append, jsSplit]
    rw [ih]
    cases h : jsSplit sep a with
    | nil => exact absurd h (jsSplit_ne_nil sep a)
    | cons g gs => by_cases hc : c = sep <;> simp [hc]

theorem jsSplit_of_not_mem (sep : Char) : ∀ s : List Char, sep ∉ s → jsSplit sep s = [s]
  | [], _ => rfl
  | c :: rest, h => by
    have ih := jsSplit_of_not_mem sep rest (by simp at h; exact h.2)
    have hc : ¬ c = sep := by simp at h; exact fun hh => h.1 hh.symm
    simp [jsSplit, ih, hc]

theorem joinWith_cons_head (sep c : Char) (g : List Char) (gs : List (List Char)) :
    joinWith sep ((c :: g) :: gs) = c :: joinWith sep (g :: gs) := by
  cases gs <;> simp [joinWith]

theorem joinWith_jsSplit (sep : Char) : ∀ s : List Char, joinWith sep (jsSplit sep s) = s
  | [] => rfl
  | c :: rest => by
    have ih := joinWith_jsSplit sep rest
    simp only [jsSplit]
    cases h : jsSplit sep rest with
    | nil => exact absurd h (jsSplit_ne_nil sep rest)
    | cons g gs =>
      rw [h] at ih
      change joinWith sep (if c = sep then [] :: g :: gs else (c :: g) :: gs) = c :: rest
      by_cases hc : c = sep
      · have hj : joinWith sep ([] :: g :: gs) = sep :: joinWith sep (g :: gs) := rfl
        rw [if_pos hc, hj, ih, hc]
      · simp only [if_neg hc, joinWith_cons_head, ih]

theorem jsSplit_joinWith (sep : Char) :
    ∀ L : List (List Char), L ≠ [] → (∀ l ∈ L, sep ∉ l) →
      jsSplit sep (joinWith sep L) = L
  | [], h, _ => absurd rfl h
  | [l], _, hmem => by
    simp only [joinWith]
    exact jsSplit_of_not_mem sep l (hmem l (by simp))
  | l :: l2 :: ls, _, hmem => by
    have ih := jsSplit_joinWith sep (l2 :: ls) (by simp)
      (fun x hx => hmem x (List.mem_cons_of_mem l hx))
    simp only [joinWith]
    rw [jsSplit_append, jsSplit_of_not_mem sep l (hmem l (by simp)), ih]
    rfl

/-- The blocks `icalToWebDav` accumulates are the block's lines joined by
newlines. -/
theorem joinWith_eq_head_append (sep : Char) (x : List Char) :
    ∀ xs : List (List Char),
      joinWith sep (x :: xs) = x ++ (xs.map fun p => sep :: p).flatten
  | [] => by simp [joinWith]
  | y :: ys => by
    have ih := joinWith_eq_head_append sep y ys
    simp [joinWith, ih]

/-! ### Properties of the object model -/

theorem objSet_append (k : List Char) (v : JVal) (o : Obj) :
    k ∉ o.map Prod.fst → objSet o k v = o ++ [(k, v)] := by
  induction o with
  | nil => intro _; rfl
  | cons kv rest ih =>
    obtain ⟨k0, v0⟩ := kv
    intro h
    simp only [List.map_cons, List.mem_cons] at h
    push_neg at h
    have hk : ¬ k0 = k := fun hh => h.1 hh.symm
    simp [objSet, hk, ih h.2]

theorem objGet_cons (k0 k : List Char) (v0 : JVal) (rest : Obj) :
    objGet ((k0, v0) :: rest) k = if k0 = k then v0 else objGet rest k := rfl

theorem objGet_of_not_mem (k : List Char) (o : Obj) :
    k ∉ o.map Prod.fst → objGet o k = JVal.undef := by
  induction o with
  | nil => intro _; rfl
  | cons kv rest ih =>
    obtain ⟨k0, v0⟩ := kv
    intro h
    simp only [List.map_cons, List.mem_cons] at h
    push_neg at h
    have hk : ¬ k0 = k := fun hh => h.1 hh.symm
    simp [objGet, hk, ih h.2]

theorem objGet_append_right (k : List Char) (o1 o2 : Obj) :
    k ∉ o1.map Prod.fst → objGet (o1 ++ o2) k = objGet o2 k := by
  induction o1 with
  | nil => intro _; rfl
  | cons kv rest ih =>
    obtain ⟨k0, v0⟩ := kv
    intro h
    simp only [List.map_cons, List.mem_cons] at h
    push_neg at h
    have hk : ¬ k0 = k := fun hh => h.1 hh.symm
    simp [objGet, hk, ih h.2]

/-! ### Properties of the decimal-digit model -/

theorem natDigitsAux_irrel :
    ∀ n f1 f2, n < f1 → n < f2 → natDigitsAux f1 n = natDigitsAux f2 n := by
  intro n
  induction n using Nat.strong_induction_on with
  | _ n ih =>
    intro f1 f2 h1 h2
    match f1, f2 with
    | g1 + 1, g2 + 1 =>
      simp only [natDigitsAux]
      by_cases hn : n < 10
      · simp [hn]
      · have hd : n / 10 < n := Nat.div_lt_self (by omega) (by omega)
        rw [if_neg hn, if_neg hn, ih (n / 10) hd g1 g2 (by omega) (by omega)]

theorem natDigits_unfold (n : Nat) :
    natDigits n = if n < 10 then [digitChar n]
      else natDigits (n / 10) ++ [digitChar (n % 10)] := by
  by_cases hn : n < 10
  · simp [natDigits, natDigitsAux, hn]
  · rw [if_neg hn]
    have h1 : natDigits n = natDigitsAux n (n / 10) ++ [digitChar (n % 10)] := by
      show natDigitsAux (n + 1) n = _
      simp only [natDigitsAux, if_neg hn]
    rw [h1, natDigits, natDigitsAux_irrel (n / 10) n (n / 10 + 1) (by omega) (by omega)]

theorem natDigits_ne_nil (n : Nat) : natDigits n ≠ [] := by
  rw [natDigits_unfold]
  by_cases hn : n < 10 <;> simp [hn]

theorem digitVal_digitChar : ∀ k, k < 10 → digitVal (digitChar k) = k := by decide

theorem digitChar_isDigit : ∀ k, k < 10 → (digitChar k).isDigit = true := by decide

theorem natDigits_all_isDigit :
    ∀ n, ∀ c ∈ natDigits n, c.isDigit = true := by
  intro n
  induction n using Nat.strong_induction_on with
  | _ n ih =>
    intro c hc
    rw [natDigits_unfold] at hc
    by_cases hn : n < 10
    · rw [if_pos hn] at hc
      simp at hc
      subst hc
      exact digitChar_isDigit n hn
    · rw [if_neg hn] at hc
      rcases List.mem_append.mp hc with h | h
      · exact ih (n / 10) (Nat.div_lt_self (by omega) (by omega)) c h
      · simp at h
        subst h
        exact digitChar_isDigit (n % 10) (by omega)

theorem digitsToNat_append_digit (ds : List Char) (c : Char) :
    digitsToNat (ds ++ [c]) = 10 * digitsToNat ds + digitVal c := by
  simp [digitsToNat, List.foldl_append]
  omega

theorem digitsToNat_natDigits : ∀ n, digitsToNat (natDigits n) = n := by
  intro n
  induction n using Nat.strong_induction_on with
  | _ n ih =>
    rw [natDigits_unfold]
    by_cases hn : n < 10
    · simp [hn, digitsToNat, digitVal_digitChar n hn]
    · rw [if_neg hn, digitsToNat_append_digit,
        ih (n / 10) (Nat.div_lt_self (by omega) (by omega)),
        digitVal_digitChar (n % 10) (by omega)]
      omega

theorem natDigits_length_lt10 (n : Nat) (h : n < 10) : (natDigits n).length = 1 := by
  rw [natDigits_unfold, if_pos h]
  rfl

theorem natDigits_length_ge10 (n : Nat) (h : 10 ≤ n) :
    (natDigits n).length = (natDigits (n / 10)).length + 1 := by
  rw [natDigits_unfold, if_neg (by omega)]
  simp

theorem natDigits_length_two (n : Nat) (h1 : 10 ≤ n) (h2 : n ≤ 99) :
    (natDigits n).length = 2 := by
  rw [natDigits_length_ge10 n h1, natDigits_length_lt10 (n / 10) (by omega)]

theorem natDigits_length_le_two (n : Nat) (h : n ≤ 99) : (natDigits n).length ≤ 2 := by
  by_cases hn : n < 10
  · rw [natDigits_length_lt10 n hn]; omega
  · rw [natDigits_length_two n (by omega) h]

theorem natDigits_length_four (n : Nat) (h1 : 1000 ≤ n) (h2 : n ≤ 9999) :
    (natDigits n).length = 4 := by
  rw [natDigits_length_ge10 n (by omega), natDigits_length_ge10 (n / 10) (by omega),
    natDigits_length_ge10 (n / 10 / 10) (by omega),
    natDigits_length_lt10 (n / 10 / 10 / 10) (by omega)]

theorem takeWhile_all {p : Char → Bool} :
    ∀ l : List Char, (∀ c ∈ l, p c = true) → l.takeWhile p = l
  | [], _ => rfl
  | c :: rest, h => by
    have hc : p c = true := h c (by simp)
    have ih := takeWhile_all rest (fun x hx => h x (List.mem_cons_of_mem c hx))
    simp [List.takeWhile, hc, ih]

theorem isDigit_not_whitespace (c : Char) (h : c.isDigit = true) :
    c.isWhitespace = false := by
  simp only [Char.isWhitespace, Bool.or_eq_false_iff, decide_eq_false_iff_not]
  refine ⟨⟨⟨?_, ?_⟩, ?_⟩, ?_⟩ <;> intro hc <;> subst hc <;> simp at h

theorem isDigit_ne_minus (c : Char) (h : c.isDigit = true) : ¬ c = '-' := by
  intro hc; subst hc; simp at h

theorem isDigit_ne_plus (c : Char) (h : c.isDigit = true) : ¬ c = '+' := by
  intro hc; subst hc; simp at h

theorem parseDigits_all (l : List Char) (h : ∀ c ∈ l, c.isDigit = true) (hne : l ≠ []) :
    parseDigits l = some (digitsToNat l) := by
  unfold parseDigits
  rw [takeWhile_all l h]
  cases l with
  | nil => exact absurd rfl hne
  | cons c rest => rfl

theorem jsParseInt_all_digits (l : List Char) (h : ∀ c ∈ l, c.isDigit = true)
    (hne : l ≠ []) : jsParseInt l = some (digitsToNat l : Int) := by
  cases l with
  | nil => exact absurd rfl hne
  | cons c rest =>
    have hc : c.isDigit = true := h c (by simp)
    have hw : c.isWhitespace = false := isDigit_not_whitespace c hc
    unfold jsParseInt
    rw [show (c :: rest).dropWhile Char.isWhitespace = c :: rest by
      simp [List.dropWhile, hw]]
    show (if c = '-' then (parseDigits rest).map (fun n => -(n : Int))
      else if c = '+' then (parseDigits rest).map (fun n => (n : Int))
      else (parseDigits (c :: rest)).map (fun n => (n : Int))) = _
    rw [if_neg (isDigit_ne_minus c hc), if_neg (isDigit_ne_plus c hc)]
    rw [parseDigits_all (c :: rest) h (by simp)]
    rfl

theorem jsParseInt_natDigits (n : Nat) : jsParseInt (natDigits n) = some (n : Int) := by
  rw [jsParseInt_all_digits (natDigits n) (natDigits_all_isDigit n) (natDigits_ne_nil n),
    digitsToNat_natDigits]

theorem digitsToNat_cons_zero (ds : List Char) :
    digitsToNat ('0' :: ds) = digitsToNat ds := rfl

/-- Length and read-back of the two-digit zero-padded rendering of a
number in 0..99. -/
theorem padTo_two_natDigits (n : Nat) (h : n ≤ 99) :
    (padTo 2 (natDigits n)).length = 2 ∧
      jsParseInt (padTo 2 (natDigits n)) = some (n : Int) := by
  by_cases hn : n < 10
  · have hl : (natDigits n).length = 1 := natDigits_length_lt10 n hn
    have hd : natDigits n = [digitChar n] := by rw [natDigits_unfold, if_pos hn]
    have hp : padTo 2 (natDigits n) = '0' :: natDigits n := by
      unfold padTo
      rw [if_pos (by omega), hl]
      rfl
    constructor
    · rw [hp]; simp [hl]
    · rw [hp, jsParseInt_all_digits ('0' :: natDigits n)
        (by
          intro c hc
          rcases List.mem_cons.mp hc with h0 | hmem
          · subst h0; decide
          · exact natDigits_all_isDigit n c hmem)
        (by simp)]
      rw [digitsToNat_cons_zero, digitsToNat_natDigits]
  · have hl : (natDigits n).length = 2 := natDigits_length_two n (by omega) h
    have hp : padTo 2 (natDigits n) = natDigits n := by
      unfold padTo
      rw [if_neg (by omega)]
    rw [hp, hl, jsParseInt_natDigits]
    exact ⟨rfl, rfl⟩

/-- The rendering of a non-negative integer is the digit rendering of its
absolute value. -/
theorem intToJStr_nonneg (n : Int) (h : 0 ≤ n) : intToJStr n = natDigits n.toNat := by
  unfold intToJStr
  rw [if_neg (by omega)]

/-! ### Fixed-width slicing helpers -/

theorem take_len_append : ∀ (a b : List Char) (n : Nat), a.length = n → (a ++ b).take n = a
  | [], _, _, h => by simp at h; subst h; rfl
  | c :: a, b, n, h => by
    cases n with
    | zero => simp at h
    | succ m =>
      simp only [List.length_cons, Nat.succ.injEq] at h
      simp [List.take_succ_cons, take_len_append a b m h]

theorem drop_len_append : ∀ (a b : List Char) (n : Nat), a.length = n → (a ++ b).drop n = b
  | [], _, _, h => by simp at h; subst h; rfl
  | c :: a, b, n, h => by
    cases n with
    | zero => simp at h
    | succ m =>
      simp only [List.length_cons, Nat.succ.injEq] at h
      simp [List.drop_succ_cons, drop_len_append a b m h]

theorem getElem?_of_drop_cons :
    ∀ (l : List Char) (n : Nat) (c : Char) (t : List Char),
      l.drop n = c :: t → l[n]? = some c
  | l, 0, c, t, h => by simp at h; simp [h]
  | [], n + 1, c, t, h => by simp at h
  | x :: xs, n + 1, c, t, h => by
    simp only [List.drop_succ_cons] at h
    simpa using getElem?_of_drop_cons xs n c t h

theorem getLast?_append_singleton : ∀ (l : List Char) (c : Char), (l ++ [c]).getLast? = some c
  | [], c => rfl
  | x :: xs, c => by
    have ih := getLast?_append_singleton xs c
    cases hx : xs ++ [c] with
    | nil => exact absurd hx (by simp)
    | cons y ys =>
      show (x :: (xs ++ [c])).getLast? = some c
      rw [hx, List.getLast?_cons_cons, ← hx, ih]

theorem drop_shift : ∀ (n : Nat) (l : List Char) (m : Nat), l.drop (n + m) = (l.drop n).drop m
  | 0, l, m => by simp
  | n + 1, [], m => by simp
  | n + 1, c :: cs, m => by
    have ih := drop_shift n cs m
    simp only [List.drop_succ_cons]
    rw [show n + 1 + m = (n + m) + 1 from by omega]
    simp only [List.drop_succ_cons]
    exact ih

/-! ### The date format/parse round trip -/

theorem daysInMonth_le31 (y m : Int) : daysInMonth y m ≤ 31 := by
  unfold daysInMonth
  split
  · omega
  · split
    · omega
    · split <;> omega

theorem pad2_int (n : Int) (h0 : 0 ≤ n) (h99 : n ≤ 99) :
    (padTo 2 (intToJStr n)).length = 2 ∧ jsParseInt (padTo 2 (intToJStr n)) = some n := by
  rw [intToJStr_nonneg n h0]
  obtain ⟨hl, hp⟩ := padTo_two_natDigits n.toNat (by omega)
  refine ⟨hl, ?_⟩
  rw [hp]
  congr 1
  omega

theorem formatToIcalDateTime_mk (u l : DateComps) :
    formatToIcalDateTime (JSDate.mk u l) false =
      intToJStr u.year ++ (padTo 2 (intToJStr (u.month + 1)) ++ (padTo 2 (intToJStr u.day)
        ++ ('T' :: (padTo 2 (intToJStr u.hours) ++ (padTo 2 (intToJStr u.minutes)
        ++ (padTo 2 (intToJStr u.seconds) ++ ['Z'])))))) := by
  simp [formatToIcalDateTime, getUTCComps, numStr, List.append_assoc]

/-- Parsing the default (UTC) rendering of a calendar-valid date whose
year has four digits recovers the date; the local getters of the
parsed date are the ones the host timezone assigns to its instant. -/
theorem parseIcalDateTime_format (tz : Tz) (u lc : DateComps) (hv : ValidComps u)
    (hy1 : 1000 ≤ u.year) (hy2 : u.year ≤ 9999) :
    parseIcalDateTime tz (some (formatToIcalDateTime (JSDate.mk u lc) false)) =
      some (JSDate.mk u (tz.utcToLoc u)) := by
  obtain ⟨y, mo, d, hh, mi, ss⟩ := u
  obtain ⟨hmo0, hmo11, hd1, hdm, hh0, hh23, hmi0, hmi59, hss0, hss59⟩ := hv
  simp only at hmo0 hmo11 hd1 hdm hh0 hh23 hmi0 hmi59 hss0 hss59 hy1 hy2
  have hd31 : d ≤ 31 := le_trans hdm (daysInMonth_le31 y mo)
  have hYlen : (intToJStr y).length = 4 := by
    rw [intToJStr_nonneg y (by omega)]
    exact natDigits_length_four y.toNat (by omega) (by omega)
  have hYparse : jsParseInt (intToJStr y) = some y := by
    rw [intToJStr_nonneg y (by omega), jsParseInt_natDigits]
    congr 1
    omega
  obtain ⟨hMOlen, hMOparse⟩ := pad2_int (mo + 1) (by omega) (by omega)
  obtain ⟨hDlen, hDparse⟩ := pad2_int d (by omega) (by omega)
  obtain ⟨hHlen, hHparse⟩ := pad2_int hh (by omega) (by omega)
  obtain ⟨hMIlen, hMIparse⟩ := pad2_int mi (by omega) (by omega)
  obtain ⟨hSlen, hSparse⟩ := pad2_int ss (by omega) (by omega)
  generalize hfmt : formatToIcalDateTime (JSDate.mk ⟨y, mo, d, hh, mi, ss⟩ lc) false = s
  have hs : s = intToJStr y ++ (padTo 2 (intToJStr (mo + 1)) ++ (padTo 2 (intToJStr d)
      ++ ('T' :: (padTo 2 (intToJStr hh) ++ (padTo 2 (intToJStr mi)
      ++ (padTo 2 (intToJStr ss) ++ ['Z'])))))) := by
    rw [← hfmt, formatToIcalDateTime_mk]
  have hslen : s.length = 16 := by
    rw [hs]
    simp [hYlen, hMOlen, hDlen, hHlen, hMIlen, hSlen]
  have hsne : s ≠ [] := by
    intro hnil
    rw [hnil] at hslen
    simp at hslen
  have h04 : jsSlice s 0 4 = intToJStr y := by
    show (s.drop 0).take 4 = _
    rw [List.drop_zero, hs]
    exact take_len_append _ _ 4 hYlen
  have hdrop4 : s.drop 4 = padTo 2 (intToJStr (mo + 1)) ++ (padTo 2 (intToJStr d)
      ++ ('T' :: (padTo 2 (intToJStr hh) ++ (padTo 2 (intToJStr mi)
      ++ (padTo 2 (intToJStr ss) ++ ['Z']))))) := by
    rw [hs]
    exact drop_len_append _ _ 4 hYlen
  have h46 : jsSlice s 4 6 = padTo 2 (intToJStr (mo + 1)) := by
    show (s.drop 4).take 2 = _
    rw [hdrop4]
    exact take_len_append _ _ 2 hMOlen
  have hdrop6 : s.drop 6 = padTo 2 (intToJStr d)
      ++ ('T' :: (padTo 2 (intToJStr hh) ++ (padTo 2 (intToJStr mi)
      ++ (padTo 2 (intToJStr ss) ++ ['Z'])))) := by
    rw [drop_shift 4 s 2, hdrop4]
    exact drop_len_append _ _ 2 hMOlen
  have h68 : jsSlice s 6 8 = padTo 2 (intToJStr d) := by
    show (s.drop 6).take 2 = _
    rw [hdrop6]
    exact take_len_append _ _ 2 hDlen
  have hdrop8 : s.drop 8 = 'T' :: (padTo 2 (intToJStr hh) ++ (padTo 2 (intToJStr mi)
      ++ (padTo 2 (intToJStr ss) ++ ['Z']))) := by
    rw [drop_shift 6 s 2, hdrop6]
    exact drop_len_append _ _ 2 hDlen
  have h8T : s[8]? = some 'T' := getElem?_of_drop_cons s 8 _ _ hdrop8
  have hdrop9 : s.drop 9 = padTo 2 (intToJStr hh) ++ (padTo 2 (intToJStr mi)
      ++ (padTo 2 (intToJStr ss) ++ ['Z'])) := by
    rw [drop_shift 8 s 1, hdrop8]
    rfl
  have h911 : jsSlice s 9 11 = padTo 2 (intToJStr hh) := by
    show (s.drop 9).take 2 = _
    rw [hdrop9]
    exact take_len_append _ _ 2 hHlen
  have hdrop11 : s.drop 11 = padTo 2 (intToJStr mi) ++ (padTo 2 (intToJStr ss) ++ ['Z']) := by
    rw [drop_shift 9 s 2, hdrop9]
    exact drop_len_append _ _ 2 hHlen
  have h1113 : jsSlice s 11 13 = padTo 2 (intToJStr mi) := by
    show (s.drop 11).take 2 = _
    rw [hdrop11]
    exact take_len_append _ _ 2 hMIlen
  have hdrop13 : s.drop 13 = padTo 2 (intToJStr ss) ++ ['Z'] := by
    rw [drop_shift 11 s 2, hdrop11]
    exact drop_len_append _ _ 2 hMIlen
  have h1315 : jsSlice s 13 15 = padTo 2 (intToJStr ss) := by
    show (s.drop 13).take 2 = _
    rw [hdrop13]
    exact take_len_append _ _ 2 hSlen
  have hlast : s.getLast? = some 'Z' := by
    have hz : s = (intToJStr y ++ padTo 2 (intToJStr (mo + 1)) ++ padTo 2 (intToJStr d)
        ++ ['T'] ++ padTo 2 (intToJStr hh) ++ padTo 2 (intToJStr mi)
        ++ padTo 2 (intToJStr ss)) ++ ['Z'] := by
      rw [hs]
      simp [List.append_assoc]
    rw [hz, getLast?_append_singleton]
  have hcond : 8 < s.length ∧ s[8]? = some 'T' := ⟨by omega, h8T⟩
  have hmo1 : (mo + 1 : Int) - 1 = mo := by omega
  have hny : normYear ⟨y, mo, d, hh, mi, ss⟩ = ⟨y, mo, d, hh, mi, ss⟩ := by
    have hcond' : ¬(0 ≤ (DateComps.mk y mo d hh mi ss).year ∧
        (DateComps.mk y mo d hh mi ss).year ≤ 99) := by
      simp only
      omega
    unfold normYear
    rw [if_neg hcond']
  unfold parseIcalDateTime
  dsimp only
  rw [if_neg hsne, if_pos hcond]
  dsimp only
  rw [if_pos hlast, h04, hYparse, h46, hMOparse, h68, hDparse, h911, hHparse,
    h1113, hMIparse, h1315, hSparse]
  simp only [Option.map_some', hmo1]
  unfold newDateUTC
  dsimp only
  rw [hny]

/-! ### Properties of the record-parse loop -/

theorem jsStartsWith_BEGINV_self : jsStartsWith BEGINV BEGINV = true := by decide

theorem jsStartsWith_BEGINV_ENDV : jsStartsWith BEGINV ENDV = false := by decide

theorem jsStartsWith_ENDV_self : jsStartsWith ENDV ENDV = true := by decide

theorem parseStep_begin (st : Option Obj × List Obj) (line : List Char)
    (h : jsStartsWith BEGINV line = true) : parseStep st line = (some [], st.2) := by
  unfold parseStep
  rw [if_pos h]

theorem parseStep_end_open (ev : Obj) (evts : List Obj) (line : List Char)
    (hb : jsStartsWith BEGINV line = false) (he : jsStartsWith ENDV line = true) :
    parseStep (some ev, evts) line = (none, evts ++ [ev]) := by
  unfold parseStep
  rw [if_neg (by simp [hb]), if_pos he]

theorem parseStep_colon (ev : Obj) (evts : List Obj) (line : List Char)
    (hb : jsStartsWith BEGINV line = false) (he : jsStartsWith ENDV line = false) :
    parseStep (some ev, evts) line =
      (some (if (jsSplit ':' line).headD [] ≠ [] ∧
          jsTrim (joinWith ':' (jsSplit ':' line).tail) ≠ [] then
        objSet ev (jsTrim ((jsSplit ':' line).headD []))
          (JVal.str (jsTrim (joinWith ':' (jsSplit ':' line).tail)))
      else ev), evts) := by
  unfold parseStep
  rw [if_neg (by simp [hb]), if_neg (by simp [he])]
  dsimp only
  split
  · rfl
  · rfl

theorem parseStep_keyval (ev : Obj) (evts : List Obj) (k v : List Char)
    (hk : ':' ∉ k) (hb : jsStartsWith BEGINV (k ++ ':' :: v) = false)
    (he : jsStartsWith ENDV (k ++ ':' :: v) = false) :
    parseStep (some ev, evts) (k ++ ':' :: v) =
      (some (if k ≠ [] ∧ jsTrim v ≠ [] then
        objSet ev (jsTrim k) (JVal.str (jsTrim v)) else ev), evts) := by
  have hsplit : jsSplit ':' (k ++ ':' :: v) = k :: jsSplit ':' v := by
    rw [jsSplit_append, jsSplit_of_not_mem ':' k hk]
    rfl
  rw [parseStep_colon ev evts _ hb he, hsplit]
  simp only [List.headD_cons, List.tail_cons, joinWith_jsSplit]

theorem parseStep_nocolon (ev : Obj) (evts : List Obj) (line : List Char)
    (hk : ':' ∉ line) (hb : jsStartsWith BEGINV line = false)
    (he : jsStartsWith ENDV line = false) :
    parseStep (some ev, evts) line = (some ev, evts) := by
  rw [parseStep_colon ev evts line hb he, jsSplit_of_not_mem ':' line hk]
  simp [joinWith, jsTrim]

theorem foldl_parseStep_open (props : List (List Char)) :
    ∀ (ev : Obj) (evts : List Obj),
      (∀ p ∈ props, jsStartsWith BEGINV p = false ∧ jsStartsWith ENDV p = false) →
      ∃ ev', List.foldl parseStep (some ev, evts) props = (some ev', evts) := by
  induction props with
  | nil => exact fun ev evts _ => ⟨ev, rfl⟩
  | cons p ps ih =>
    intro ev evts h
    obtain ⟨hb, he⟩ := h p (by simp)
    rw [List.foldl_cons, parseStep_colon ev evts p hb he]
    exact ih _ evts fun q hq => h q (List.mem_cons_of_mem p hq)

/-! ### Properties of the block-extract loop -/

theorem extractStep_begin (st : Option (List Char) × List (List Char)) (line : List Char)
    (h : jsStartsWith BEGINV line = true) :
    extractStep st line = (some line, flushBlocks st) := by
  obtain ⟨cur, out⟩ := st
  unfold extractStep flushBlocks
  rw [if_pos h]
  cases cur <;> rfl

theorem extractStep_body (cur : List Char) (out : List (List Char)) (line : List Char)
    (hb : jsStartsWith BEGINV line = false) (he : jsStartsWith ENDV line = false) :
    extractStep (some cur, out) line = (some (cur ++ '\n' :: line), out) := by
  unfold extractStep
  rw [if_neg (by simp [hb]), if_neg (by simp [he])]

theorem foldl_extractStep_body (props : List (List Char)) :
    ∀ (cur : List Char) (out : List (List Char)),
      (∀ p ∈ props, jsStartsWith BEGINV p = false ∧ jsStartsWith ENDV p = false) →
      List.foldl extractStep (some cur, out) props =
        (some (cur ++ (props.map fun p => '\n' :: p).flatten), out) := by
  induction props with
  | nil => intro cur out _; simp
  | cons p ps ih =>
    intro cur out h
    obtain ⟨hb, he⟩ := h p (by simp)
    rw [List.foldl_cons, extractStep_body cur out p hb he,
      ih _ out (fun q hq => h q (List.mem_cons_of_mem p hq))]
    simp

/-! ### Serialize-then-parse round trip -/

/-- A string-valued record, as the round-trip contract ranges over. -/
def toObj (r : List (List Char × List Char)) : Obj :=
  r.map fun kv => (kv.1, JVal.str kv.2)

/-- The conditions on one key-value pair under which one serialized
`KEY:value` line survives the parse loop unchanged: non-empty
trim-invariant newline-free key and value, a colon-free key, and a
line that does not collide with the two block markers. -/
def C1Good (kv : List Char × List Char) : Prop :=
  kv.1 ≠ [] ∧ jsTrim kv.1 = kv.1 ∧ ':' ∉ kv.1 ∧ '\n' ∉ kv.1 ∧
    kv.2 ≠ [] ∧ jsTrim kv.2 = kv.2 ∧ '\n' ∉ kv.2 ∧
    jsStartsWith BEGINV (kv.1 ++ ':' :: kv.2) = false ∧
    jsStartsWith ENDV (kv.1 ++ ':' :: kv.2) = false

instance (kv : List Char × List Char) : Decidable (C1Good kv) := by
  unfold C1Good; infer_instance

theorem filterMap_toObj (r : List (List Char × List Char))
    (h : ∀ kv ∈ r, kv.1 ≠ [] ∧ kv.2 ≠ []) :
    (toObj r).filterMap (fun kv =>
        if kv.1 ≠ [] ∧ jTruthy kv.2 then some (kv.1 ++ ':' :: jToStr kv.2) else none) =
      r.map fun kv => kv.1 ++ ':' :: kv.2 := by
  induction r with
  | nil => rfl
  | cons kv rest ih =>
    obtain ⟨hk, hv⟩ := h kv (by simp)
    have hguard : kv.1 ≠ [] ∧ jTruthy (JVal.str kv.2) = true := by
      refine ⟨hk, ?_⟩
      simp [jTruthy, hv]
    simp only [toObj, List.map_cons, List.filterMap_cons, if_pos hguard, jToStr]
    exact congrArg (List.cons _) (ih fun q hq => h q (List.mem_cons_of_mem kv hq))

theorem evLines_toObj (r : List (List Char × List Char))
    (h : ∀ kv ∈ r, kv.1 ≠ [] ∧ kv.2 ≠ []) :
    evLines (toObj r) = BEGINV :: (r.map fun kv => kv.1 ++ ':' :: kv.2) ++ [ENDV] := by
  unfold evLines
  rw [filterMap_toObj r h]

theorem toObj_keys (r : List (List Char × List Char)) :
    (toObj r).map Prod.fst = r.map Prod.fst := by
  simp [toObj, List.map_map]

theorem parse_props (r : List (List Char × List Char)) :
    ∀ (pre : List (List Char × List Char)) (evts : List Obj) (rest : List (List Char)),
      ((pre ++ r).map Prod.fst).Nodup →
      (∀ kv ∈ r, C1Good kv) →
      List.foldl parseStep (some (toObj pre), evts)
        ((r.map fun kv => kv.1 ++ ':' :: kv.2) ++ ENDV :: rest) =
      List.foldl parseStep (none, evts ++ [toObj (pre ++ r)]) rest := by
  induction r with
  | nil =>
    intro pre evts rest _ _
    simp only [List.map_nil, List.nil_append, List.foldl_cons]
    rw [parseStep_end_open (toObj pre) evts ENDV jsStartsWith_BEGINV_ENDV
      jsStartsWith_ENDV_self]
    simp
  | cons kv r ih =>
    intro pre evts rest hnodup hgood
    obtain ⟨hkne, hktrim, hkcolon, _, hvne, hvtrim, _, hnb, hne⟩ := hgood kv (by simp)
    simp only [List.map_cons, List.cons_append, List.foldl_cons]
    rw [parseStep_keyval (toObj pre) evts kv.1 kv.2 hkcolon hnb hne,
      if_pos ⟨hkne, by rw [hvtrim]; exact hvne⟩, hktrim, hvtrim]
    have hfresh : kv.1 ∉ (toObj pre).map Prod.fst := by
      rw [toObj_keys]
      intro hmem
      have hsplit := List.nodup_append.mp (by simpa using hnodup)
      exact hsplit.2.2 hmem (by simp)
    rw [objSet_append kv.1 (JVal.str kv.2) (toObj pre) hfresh]
    have hT : toObj pre ++ [(kv.1, JVal.str kv.2)] = toObj (pre ++ [kv]) := by
      simp [toObj]
    rw [hT]
    have hre := ih (pre ++ [kv]) evts rest
      (by simpa [List.append_assoc] using hnodup)
      (fun q hq => hgood q (List.mem_cons_of_mem kv hq))
    simpa [List.append_assoc] using hre

theorem parse_blocks (rs : List (List (List Char × List Char))) :
    ∀ evts : List Obj,
      (∀ r ∈ rs, (r.map Prod.fst).Nodup ∧ ∀ kv ∈ r, C1Good kv) →
      List.foldl parseStep (none, evts)
        (rs.map fun r => BEGINV :: (r.map fun kv => kv.1 ++ ':' :: kv.2) ++ [ENDV]).flatten =
      (none, evts ++ rs.map toObj) := by
  induction rs with
  | nil => intro evts _; simp
  | cons r rs ih =>
    intro evts h
    obtain ⟨hnodup, hgood⟩ := h r (by simp)
    simp only [List.map_cons, List.flatten_cons, List.cons_append, List.foldl_cons]
    rw [parseStep_begin _ _ jsStartsWith_BEGINV_self]
    dsimp only
    simp only [List.append_assoc, List.singleton_append]
    have h1 := parse_props r [] evts
      ((rs.map fun q => BEGINV :: ((q.map fun kv => kv.1 ++ ':' :: kv.2) ++ [ENDV])).flatten)
      (by simpa using hnodup) hgood
    simp only [toObj, List.map_nil] at h1
    rw [h1]
    have h2 := ih (evts ++ [toObj r]) (fun q hq => h q (List.mem_cons_of_mem r hq))
    simpa [toObj] using h2

/-! ### Event to record and back -/

theorem foldl_objSet_fresh (ex : List (List Char × JVal)) :
    ∀ base : Obj,
      (∀ kv ∈ ex, jsToUpper kv.1 ∉ base.map Prod.fst) →
      (ex.map fun kv => jsToUpper kv.1).Nodup →
      ex.foldl (fun acc kv => objSet acc (jsToUpper kv.1) kv.2) base =
        base ++ ex.map fun kv => (jsToUpper kv.1, kv.2) := by
  induction ex with
  | nil => intro base _ _; simp
  | cons kv rest ih =>
    intro base hfresh hnodup
    rw [List.map_cons] at hnodup
    obtain ⟨hhead, htail⟩ := List.nodup_cons.mp hnodup
    simp only [List.foldl_cons]
    rw [objSet_append _ _ base (hfresh kv (by simp))]
    rw [ih (base ++ [(jsToUpper kv.1, kv.2)])
      (by
        intro q hq
        rw [List.map_append, List.mem_append]
        push_neg
        refine ⟨hfresh q (List.mem_cons_of_mem kv hq), ?_⟩
        simp only [List.map_cons, List.map_nil, List.mem_singleton]
        intro hcon
        exact hhead (hcon ▸ List.mem_map_of_mem (fun p => jsToUpper p.1) hq))
      htail]
    simp

theorem upper_extra_not_reserved_key (eex : List (List Char × JVal))
    (hext1 : ∀ kv ∈ eex, jsToUpper kv.1 ∉ reservedKeys) (k : List Char)
    (hk : k ∈ reservedKeys) :
    k ∉ (eex.map fun kv => (jsToUpper kv.1, kv.2)).map Prod.fst := by
  intro hmem
  rw [List.map_map] at hmem
  obtain ⟨kv, hkv, heq⟩ := List.mem_map.mp hmem
  exact hext1 kv hkv (by rw [show jsToUpper kv.1 = k from heq]; exact hk)

theorem char_toNat_ofNat_valid (n : Nat) (h : n.isValidChar) :
    (Char.ofNat n).toNat = n := by
  unfold Char.ofNat
  rw [dif_pos h]
  rfl

theorem toUpper_ne_lower (c x : Char) (h1 : 97 ≤ x.toNat) (h2 : x.toNat ≤ 122) :
    Char.toUpper c ≠ x := by
  intro heq
  have h3 := congrArg Char.toNat heq
  simp only [Char.toUpper] at h3
  by_cases hc : c.toNat ≥ 97 ∧ c.toNat ≤ 122
  · rw [if_pos hc, char_toNat_ofNat_valid (c.toNat - 32) (Or.inl (by omega))] at h3
    omega
  · rw [if_neg hc] at h3
    omega

theorem jsToUpper_ne_lower_head (x : Char) (h1 : 97 ≤ x.toNat) (h2 : x.toNat ≤ 122)
    (k rest : List Char) : jsToUpper k ≠ x :: rest := by
  cases k with
  | nil => simp [jsToUpper]
  | cons c kk =>
    intro hcon
    simp only [jsToUpper, List.map_cons, List.cons.injEq] at hcon
    exact toUpper_ne_lower c x h1 h2 hcon.1

theorem jsToUpper_ne_named (k : List Char) : jsToUpper k ∉ namedFields := by
  intro hmem
  unfold namedFields at hmem
  simp only [List.mem_cons, List.not_mem_nil, or_false] at hmem
  rcases hmem with h | h | h | h | h | h
  · exact jsToUpper_ne_lower_head 'i' (by decide) (by decide) k (cs "d")
      (h.trans (show cs "id" = 'i' :: cs "d" from rfl))
  · exact jsToUpper_ne_lower_head 's' (by decide) (by decide) k (cs "ummary")
      (h.trans (show cs "summary" = 's' :: cs "ummary" from rfl))
  · exact jsToUpper_ne_lower_head 's' (by decide) (by decide) k (cs "tart")
      (h.trans (show cs "start" = 's' :: cs "tart" from rfl))
  · exact jsToUpper_ne_lower_head 'e' (by decide) (by decide) k (cs "nd")
      (h.trans (show cs "end" = 'e' :: cs "nd" from rfl))
  · exact jsToUpper_ne_lower_head 'l' (by decide) (by decide) k (cs "ocation")
      (h.trans (show cs "location" = 'l' :: cs "ocation" from rfl))
  · exact jsToUpper_ne_lower_head 'd' (by decide) (by decide) k (cs "escription")
      (h.trans (show cs "description" = 'd' :: cs "escription" from rfl))

theorem assignEventField_extra (e : Event) (k : List Char) (v : JVal)
    (h : k ∉ namedFields) :
    assignEventField e k v = { e with extra := objSet e.extra k v } := by
  unfold namedFields at h
  simp only [List.mem_cons, List.not_mem_nil, or_false, not_or] at h
  obtain ⟨h1, h2, h3, h4, h5, h6⟩ := h
  unfold assignEventField
  rw [if_neg h1, if_neg h2, if_neg h3, if_neg h4, if_neg h5, if_neg h6]

theorem foldAssign_extras (ext : Obj) :
    ∀ e : Event,
      (∀ kv ∈ ext, kv.1 ∉ reservedKeys ∧ kv.1 ∉ namedFields) →
      (ext.map Prod.fst).Nodup →
      (∀ kv ∈ ext, kv.1 ∉ e.extra.map Prod.fst) →
      ext.foldl
          (fun e kv => if kv.1 ∈ reservedKeys then e else assignEventField e kv.1 kv.2) e =
        { e with extra := e.extra ++ ext } := by
  induction ext with
  | nil => intro e _ _ _; simp
  | cons kv rest ih =>
    intro e hgood hnodup hfresh
    obtain ⟨hres, hnamed⟩ := hgood kv (by simp)
    rw [List.map_cons] at hnodup
    obtain ⟨hhead, htail⟩ := List.nodup_cons.mp hnodup
    simp only [List.foldl_cons]
    rw [if_neg hres, assignEventField_extra e kv.1 kv.2 hnamed,
      objSet_append _ _ _ (hfresh kv (by simp))]
    rw [ih { e with extra := e.extra ++ [(kv.1, kv.2)] }
      (fun q hq => hgood q (List.mem_cons_of_mem kv hq)) htail
      (by
        intro q hq
        simp only [List.map_append, List.mem_append, List.map_cons, List.map_nil,
          List.mem_singleton, not_or]
        refine ⟨hfresh q (List.mem_cons_of_mem kv hq), ?_⟩
        intro hcon
        exact hhead (hcon ▸ List.mem_map_of_mem Prod.fst hq))]
    simp

theorem assignEventField_id (e : Event) (k : List Char) (v : JVal)
    (h : k ≠ cs "id") : (assignEventField e k v).id = e.id := by
  unfold assignEventField
  repeat' split
  all_goals simp_all

theorem assignEventField_summary (e : Event) (k : List Char) (v : JVal)
    (h : k ≠ cs "summary") : (assignEventField e k v).summary = e.summary := by
  unfold assignEventField
  repeat' split
  all_goals simp_all

theorem foldAssign_id (l : Obj) :
    ∀ e : Event, cs "id" ∉ l.map Prod.fst →
      (l.foldl
          (fun e kv => if kv.1 ∈ reservedKeys then e else assignEventField e kv.1 kv.2)
          e).id = e.id := by
  induction l with
  | nil => intro e _; rfl
  | cons kv rest ih =>
    intro e h
    rw [List.map_cons] at h
    simp only [List.mem_cons, not_or] at h
    simp only [List.foldl_cons]
    by_cases hres : kv.1 ∈ reservedKeys
    · rw [if_pos hres]
      exact ih e h.2
    · rw [if_neg hres, ih (assignEventField e kv.1 kv.2) h.2]
      exact assignEventField_id e kv.1 kv.2 (fun hcon => h.1 hcon.symm)

theorem foldAssign_summary (l : Obj) :
    ∀ e : Event, cs "summary" ∉ l.map Prod.fst →
      (l.foldl
          (fun e kv => if kv.1 ∈ reservedKeys then e else assignEventField e kv.1 kv.2)
          e).summary = e.summary := by
  induction l with
  | nil => intro e _; rfl
  | cons kv rest ih =>
    intro e h
    rw [List.map_cons] at h
    simp only [List.mem_cons, not_or] at h
    simp only [List.foldl_cons]
    by_cases hres : kv.1 ∈ reservedKeys
    · rw [if_pos hres]
      exact ih e h.2
    · rw [if_neg hres, ih (assignEventField e kv.1 kv.2) h.2]
      exact assignEventField_summary e kv.1 kv.2 (fun hcon => h.1 hcon.symm)

theorem mapIcal_reverse_nn (tz : Tz) (i s fs fe : List Char)
    (eex : List (List Char × JVal))
    (hext1 : ∀ kv ∈ eex, jsToUpper kv.1 ∉ reservedKeys)
    (hext2 : (eex.map fun kv => jsToUpper kv.1).Nodup) :
    mapIcalObjectToEvent tz
        ([(cs "UID", JVal.str i), (cs "SUMMARY", JVal.str s),
          (cs "DTSTART", JVal.str fs), (cs "DTEND", JVal.str fe)]
          ++ eex.map fun kv => (jsToUpper kv.1, kv.2)) =
      some (Event.mk (JVal.str i) (JVal.str s)
        (dateVal tz (parseIcalDateTime tz (some fs)))
        (dateVal tz (parseIcalDateTime tz (some fe)))
        JVal.undef JVal.undef
        (eex.map fun kv => (jsToUpper kv.1, kv.2))) := by
  have hLget : objGet
      ([(cs "UID", JVal.str i), (cs "SUMMARY", JVal.str s),
        (cs "DTSTART", JVal.str fs), (cs "DTEND", JVal.str fe)]
        ++ eex.map fun kv => (jsToUpper kv.1, kv.2)) (cs "LOCATION") = JVal.undef := by
    rw [objGet_append_right _ _ _ (by simp only [List.map_cons, List.map_nil]; decide)]
    exact objGet_of_not_mem _ _
      (upper_extra_not_reserved_key eex hext1 _ (by unfold reservedKeys; simp))
  have hDget : objGet
      ([(cs "UID", JVal.str i), (cs "SUMMARY", JVal.str s),
        (cs "DTSTART", JVal.str fs), (cs "DTEND", JVal.str fe)]
        ++ eex.map fun kv => (jsToUpper kv.1, kv.2)) (cs "DESCRIPTION") = JVal.undef := by
    rw [objGet_append_right _ _ _ (by simp only [List.map_cons, List.map_nil]; decide)]
    exact objGet_of_not_mem _ _
      (upper_extra_not_reserved_key eex hext1 _ (by unfold reservedKeys; simp))
  have hext1' : ∀ kv ∈ eex.map fun kv => (jsToUpper kv.1, kv.2),
      kv.1 ∉ reservedKeys ∧ kv.1 ∉ namedFields := by
    intro kv hkv
    obtain ⟨q, hq, rfl⟩ := List.mem_map.mp hkv
    exact ⟨hext1 q hq, jsToUpper_ne_named q.1⟩
  have hnodup' : ((eex.map fun kv => (jsToUpper kv.1, kv.2)).map Prod.fst).Nodup := by
    rw [List.map_map]
    exact hext2
  unfold mapIcalObjectToEvent
  rw [if_pos ⟨rfl, rfl, rfl, rfl, by rw [hLget]; rfl, by rw [hDget]; rfl⟩]
  rw [hLget, hDget]
  show some (List.foldl
      (fun e kv => if kv.1 ∈ reservedKeys then e else assignEventField e kv.1 kv.2)
      (Event.mk (JVal.str i) (JVal.str s)
        (dateVal tz (parseIcalDateTime tz (some fs)))
        (dateVal tz (parseIcalDateTime tz (some fe)))
        JVal.undef JVal.undef [])
      (eex.map fun kv => (jsToUpper kv.1, kv.2))) = _
  rw [foldAssign_extras (eex.map fun kv => (jsToUpper kv.1, kv.2))
    (Event.mk (JVal.str i) (JVal.str s)
      (dateVal tz (parseIcalDateTime tz (some fs)))
      (dateVal tz (parseIcalDateTime tz (some fe)))
      JVal.undef JVal.undef [])
    hext1' hnodup' (fun kv _ => List.not_mem_nil kv.1)]
  rfl

theorem mapIcal_reverse_sn (tz : Tz) (i s fs fe l : List Char)
    (eex : List (List Char × JVal)) (hl : l ≠ [])
    (hext1 : ∀ kv ∈ eex, jsToUpper kv.1 ∉ reservedKeys)
    (hext2 : (eex.map fun kv => jsToUpper kv.1).Nodup) :
    mapIcalObjectToEvent tz
        ([(cs "UID", JVal.str i), (cs "SUMMARY", JVal.str s),
          (cs "DTSTART", JVal.str fs), (cs "DTEND", JVal.str fe),
          (cs "LOCATION", JVal.str l)]
          ++ eex.map fun kv => (jsToUpper kv.1, kv.2)) =
      some (Event.mk (JVal.str i) (JVal.str s)
        (dateVal tz (parseIcalDateTime tz (some fs)))
        (dateVal tz (parseIcalDateTime tz (some fe)))
        (JVal.str l) JVal.undef
        (eex.map fun kv => (jsToUpper kv.1, kv.2))) := by
  have hlT : jTruthy (JVal.str l) = true := by simp [jTruthy, hl]
  have hLv : objGet
      ([(cs "UID", JVal.str i), (cs "SUMMARY", JVal.str s),
        (cs "DTSTART", JVal.str fs), (cs "DTEND", JVal.str fe),
        (cs "LOCATION", JVal.str l)]
        ++ eex.map fun kv => (jsToUpper kv.1, kv.2)) (cs "LOCATION") = JVal.str l := rfl
  have hDget : objGet
      ([(cs "UID", JVal.str i), (cs "SUMMARY", JVal.str s),
        (cs "DTSTART", JVal.str fs), (cs "DTEND", JVal.str fe),
        (cs "LOCATION", JVal.str l)]
        ++ eex.map fun kv => (jsToUpper kv.1, kv.2)) (cs "DESCRIPTION") = JVal.undef := by
    rw [objGet_append_right _ _ _ (by simp only [List.map_cons, List.map_nil]; decide)]
    exact objGet_of_not_mem _ _
      (upper_extra_not_reserved_key eex hext1 _ (by unfold reservedKeys; simp))
  have hext1' : ∀ kv ∈ eex.map fun kv => (jsToUpper kv.1, kv.2),
      kv.1 ∉ reservedKeys ∧ kv.1 ∉ namedFields := by
    intro kv hkv
    obtain ⟨q, hq, rfl⟩ := List.mem_map.mp hkv
    exact ⟨hext1 q hq, jsToUpper_ne_named q.1⟩
  have hnodup' : ((eex.map fun kv => (jsToUpper kv.1, kv.2)).map Prod.fst).Nodup := by
    rw [List.map_map]
    exact hext2
  unfold mapIcalObjectToEvent
  rw [if_pos ⟨rfl, rfl, rfl, rfl, rfl, by rw [hDget]; rfl⟩]
  rw [hLv, hDget, if_pos hlT]
  show some (List.foldl
      (fun e kv => if kv.1 ∈ reservedKeys then e else assignEventField e kv.1 kv.2)
      (Event.mk (JVal.str i) (JVal.str s)
        (dateVal tz (parseIcalDateTime tz (some fs)))
        (dateVal tz (parseIcalDateTime tz (some fe)))
        (JVal.str l) JVal.undef [])
      (eex.map fun kv => (jsToUpper kv.1, kv.2))) = _
  rw [foldAssign_extras (eex.map fun kv => (jsToUpper kv.1, kv.2))
    (Event.mk (JVal.str i) (JVal.str s)
      (dateVal tz (parseIcalDateTime tz (some fs)))
      (dateVal tz (parseIcalDateTime tz (some fe)))
      (JVal.str l) JVal.undef [])
    hext1' hnodup' (fun kv _ => List.not_mem_nil kv.1)]
  rfl

theorem mapIcal_reverse_ns (tz : Tz) (i s fs fe ds : List Char)
    (eex : List (List Char × JVal)) (hd : ds ≠ [])
    (hext1 : ∀ kv ∈ eex, jsToUpper kv.1 ∉ reservedKeys)
    (hext2 : (eex.map fun kv => jsToUpper kv.1).Nodup) :
    mapIcalObjectToEvent tz
        ([(cs "UID", JVal.str i), (cs "SUMMARY", JVal.str s),
          (cs "DTSTART", JVal.str fs), (cs "DTEND", JVal.str fe),
          (cs "DESCRIPTION", JVal.str ds)]
          ++ eex.map fun kv => (jsToUpper kv.1, kv.2)) =
      some (Event.mk (JVal.str i) (JVal.str s)
        (dateVal tz (parseIcalDateTime tz (some fs)))
        (dateVal tz (parseIcalDateTime tz (some fe)))
        JVal.undef (JVal.str ds)
        (eex.map fun kv => (jsToUpper kv.1, kv.2))) := by
  have hdT : jTruthy (JVal.str ds) = true := by simp [jTruthy, hd]
  have hLget : objGet
      ([(cs "UID", JVal.str i), (cs "SUMMARY", JVal.str s),
        (cs "DTSTART", JVal.str fs), (cs "DTEND", JVal.str fe),
        (cs "DESCRIPTION", JVal.str ds)]
        ++ eex.map fun kv => (jsToUpper kv.1, kv.2)) (cs "LOCATION") = JVal.undef := by
    rw [objGet_append_right _ _ _ (by simp only [List.map_cons, List.map_nil]; decide)]
    exact objGet_of_not_mem _ _
      (upper_extra_not_reserved_key eex hext1 _ (by unfold reservedKeys; simp))
  have hDv : objGet
      ([(cs "UID", JVal.str i), (cs "SUMMARY", JVal.str s),
        (cs "DTSTART", JVal.str fs), (cs "DTEND", JVal.str fe),
        (cs "DESCRIPTION", JVal.str ds)]
        ++ eex.map fun kv => (jsToUpper kv.1, kv.2)) (cs "DESCRIPTION") = JVal.str ds := rfl
  have hext1' : ∀ kv ∈ eex.map fun kv => (jsToUpper kv.1, kv.2),
      kv.1 ∉ reservedKeys ∧ kv.1 ∉ namedFields := by
    intro kv hkv
    obtain ⟨q, hq, rfl⟩ := List.mem_map.mp hkv
    exact ⟨hext1 q hq, jsToUpper_ne_named q.1⟩
  have hnodup' : ((eex.map fun kv => (jsToUpper kv.1, kv.2)).map Prod.fst).Nodup := by
    rw [List.map_map]
    exact hext2
  unfold mapIcalObjectToEvent
  rw [if_pos ⟨rfl, rfl, rfl, rfl, by rw [hLget]; rfl, rfl⟩]
  rw [hLget, hDv, if_pos hdT]
  show some (List.foldl
      (fun e kv => if kv.1 ∈ reservedKeys then e else assignEventField e kv.1 kv.2)
      (Event.mk (JVal.str i) (JVal.str s)
        (dateVal tz (parseIcalDateTime tz (some fs)))
        (dateVal tz (parseIcalDateTime tz (some fe)))
        JVal.undef (JVal.str ds) [])
      (eex.map fun kv => (jsToUpper kv.1, kv.2))) = _
  rw [foldAssign_extras (eex.map fun kv => (jsToUpper kv.1, kv.2))
    (Event.mk (JVal.str i) (JVal.str s)
      (dateVal tz (parseIcalDateTime tz (some fs)))
      (dateVal tz (parseIcalDateTime tz (some fe)))
      JVal.undef (JVal.str ds) [])
    hext1' hnodup' (fun kv _ => List.not_mem_nil kv.1)]
  rfl

theorem mapIcal_reverse_ss (tz : Tz) (i s fs fe l ds : List Char)
    (eex : List (List Char × JVal)) (hl : l ≠ []) (hd : ds ≠ [])
    (hext1 : ∀ kv ∈ eex, jsToUpper kv.1 ∉ reservedKeys)
    (hext2 : (eex.map fun kv => jsToUpper kv.1).Nodup) :
    mapIcalObjectToEvent tz
        ([(cs "UID", JVal.str i), (cs "SUMMARY", JVal.str s),
          (cs "DTSTART", JVal.str fs), (cs "DTEND", JVal.str fe),
          (cs "LOCATION", JVal.str l), (cs "DESCRIPTION", JVal.str ds)]
          ++ eex.map fun kv => (jsToUpper kv.1, kv.2)) =
      some (Event.mk (JVal.str i) (JVal.str s)
        (dateVal tz (parseIcalDateTime tz (some fs)))
        (dateVal tz (parseIcalDateTime tz (some fe)))
        (JVal.str l) (JVal.str ds)
        (eex.map fun kv => (jsToUpper kv.1, kv.2))) := by
  have hlT : jTruthy (JVal.str l) = true := by simp [jTruthy, hl]
  have hdT : jTruthy (JVal.str ds) = true := by simp [jTruthy, hd]
  have hLv : objGet
      ([(cs "UID", JVal.str i), (cs "SUMMARY", JVal.str s),
        (cs "DTSTART", JVal.str fs), (cs "DTEND", JVal.str fe),
        (cs "LOCATION", JVal.str l), (cs "DESCRIPTION", JVal.str ds)]
        ++ eex.map fun kv => (jsToUpper kv.1, kv.2)) (cs "LOCATION") = JVal.str l := rfl
  have hDv : objGet
      ([(cs "UID", JVal.str i), (cs "SUMMARY", JVal.str s),
        (cs "DTSTART", JVal.str fs), (cs "DTEND", JVal.str fe),
        (cs "LOCATION", JVal.str l), (cs "DESCRIPTION", JVal.str ds)]
        ++ eex.map fun kv => (jsToUpper kv.1, kv.2)) (cs "DESCRIPTION") = JVal.str ds := rfl
  have hext1' : ∀ kv ∈ eex.map fun kv => (jsToUpper kv.1, kv.2),
      kv.1 ∉ reservedKeys ∧ kv.1 ∉ namedFields := by
    intro kv hkv
    obtain ⟨q, hq, rfl⟩ := List.mem_map.mp hkv
    exact ⟨hext1 q hq, jsToUpper_ne_named q.1⟩
  have hnodup' : ((eex.map fun kv => (jsToUpper kv.1, kv.2)).map Prod.fst).Nodup := by
    rw [List.map_map]
    exact hext2
  unfold mapIcalObjectToEvent
  rw [if_pos ⟨rfl, rfl, rfl, rfl, rfl, rfl⟩]
  rw [hLv, hDv, if_pos hlT, if_pos hdT]
  show some (List.foldl
      (fun e kv => if kv.1 ∈ reservedKeys then e else assignEventField e kv.1 kv.2)
      (Event.mk (JVal.str i) (JVal.str s)
        (dateVal tz (parseIcalDateTime tz (some fs)))
        (dateVal tz (parseIcalDateTime tz (some fe)))
        (JVal.str l) (JVal.str ds) [])
      (eex.map fun kv => (jsToUpper kv.1, kv.2))) = _
  rw [foldAssign_extras (eex.map fun kv => (jsToUpper kv.1, kv.2))
    (Event.mk (JVal.str i) (JVal.str s)
      (dateVal tz (parseIcalDateTime tz (some fs)))
      (dateVal tz (parseIcalDateTime tz (some fe)))
      (JVal.str l) (JVal.str ds) [])
    hext1' hnodup' (fun kv _ => List.not_mem_nil kv.1)]
  rfl

/-- C3 (amended): an Event whose `id` is a non-empty string, whose
`summary` is a string, whose `start` and `end` are Date objects
holding calendar-valid instants with four-digit years living in the
ambient environment, whose `location` and `description` are each
absent or a non-empty string, and whose custom fields have upper-cased
names that avoid the six reserved record keys and each other, is
recovered by `mapEventToIcalObject` followed by `mapIcalObjectToEvent`
up to upper-casing of the custom field names.  The original claim
quantified over every Event; it fails already when `id` is absent (the
reverse map then raises `InvalidRecord`), so these hypotheses are
required. -/
theorem c3_event_roundtrip (tz : Tz) (e : Event) (i s : List Char) (u w : DateComps)
    (hid : e.id = JVal.str i) (hine : i ≠ [])
    (hsum : e.summary = JVal.str s)
    (hstart : e.start = JVal.date (JSDate.mk u (tz.utcToLoc u))
      (tz.dateToString (JSDate.mk u (tz.utcToLoc u))))
    (hu : ValidComps u) (hu1 : 1000 ≤ u.year) (hu2 : u.year ≤ 9999)
    (hend : e.end_ = JVal.date (JSDate.mk w (tz.utcToLoc w))
      (tz.dateToString (JSDate.mk w (tz.utcToLoc w))))
    (hw : ValidComps w) (hw1 : 1000 ≤ w.year) (hw2 : w.year ≤ 9999)
    (hloc : e.location = JVal.undef ∨ ∃ l, l ≠ [] ∧ e.location = JVal.str l)
    (hdesc : e.description = JVal.undef ∨ ∃ t, t ≠ [] ∧ e.description = JVal.str t)
    (hext1 : ∀ kv ∈ e.extra, jsToUpper kv.1 ∉ reservedKeys)
    (hext2 : (e.extra.map fun kv => jsToUpper kv.1).Nodup) :
    (mapEventToIcalObject e).bind (mapIcalObjectToEvent tz) =
      some { e with extra := e.extra.map fun kv => (jsToUpper kv.1, kv.2) } := by
  obtain ⟨eid, esum, estart, eend, eloc, edesc, eex⟩ := e
  dsimp only at hid hsum hstart hend hloc hdesc hext1 hext2 ⊢
  subst hid hsum hstart hend
  have hiT : jTruthy (JVal.str i) = true := by simp [jTruthy, hine]
  rcases hloc with hLu | ⟨l, hl, hLs⟩
  · rcases hdesc with hDu | ⟨ds, hd, hDs⟩
    · subst hLu hDu
      have hfresh : ∀ kv ∈ eex, jsToUpper kv.1 ∉
          ([(cs "UID", JVal.str i), (cs "SUMMARY", JVal.str s),
            (cs "DTSTART", JVal.str (formatToIcalDateTime (JSDate.mk u (tz.utcToLoc u)))),
            (cs "DTEND", JVal.str (formatToIcalDateTime (JSDate.mk w (tz.utcToLoc w))))] :
            Obj).map Prod.fst := by
        intro kv hkv hmem
        apply hext1 kv hkv
        simp only [List.map_cons, List.map_nil, List.mem_cons,
          List.not_mem_nil, or_false] at hmem
        unfold reservedKeys
        rcases hmem with h | h | h | h <;> rw [h] <;> simp
      unfold mapEventToIcalObject
      dsimp only
      rw [if_pos hiT]
      show (some (eex.foldl (fun acc kv => objSet acc (jsToUpper kv.1) kv.2)
          [(cs "UID", JVal.str i), (cs "SUMMARY", JVal.str s),
           (cs "DTSTART", JVal.str (formatToIcalDateTime (JSDate.mk u (tz.utcToLoc u)))),
           (cs "DTEND", JVal.str (formatToIcalDateTime (JSDate.mk w (tz.utcToLoc w))))])).bind
        (mapIcalObjectToEvent tz) = _
      rw [foldl_objSet_fresh eex _ hfresh hext2]
      show mapIcalObjectToEvent tz
          ([(cs "UID", JVal.str i), (cs "SUMMARY", JVal.str s),
            (cs "DTSTART", JVal.str (formatToIcalDateTime (JSDate.mk u (tz.utcToLoc u)))),
            (cs "DTEND", JVal.str (formatToIcalDateTime (JSDate.mk w (tz.utcToLoc w))))]
            ++ eex.map fun kv => (jsToUpper kv.1, kv.2)) = _
      rw [mapIcal_reverse_nn tz i s _ _ eex hext1 hext2,
        parseIcalDateTime_format tz u (tz.utcToLoc u) hu hu1 hu2,
        parseIcalDateTime_format tz w (tz.utcToLoc w) hw hw1 hw2]
      rfl
    · subst hLu hDs
      have hfresh : ∀ kv ∈ eex, jsToUpper kv.1 ∉
          ([(cs "UID", JVal.str i), (cs "SUMMARY", JVal.str s),
            (cs "DTSTART", JVal.str (formatToIcalDateTime (JSDate.mk u (tz.utcToLoc u)))),
            (cs "DTEND", JVal.str (formatToIcalDateTime (JSDate.mk w (tz.utcToLoc w)))),
            (cs "DESCRIPTION", JVal.str ds)] : Obj).map Prod.fst := by
        intro kv hkv hmem
        apply hext1 kv hkv
        simp only [List.map_cons, List.map_nil, List.mem_cons,
          List.not_mem_nil, or_false] at hmem
        unfold reservedKeys
        rcases hmem with h | h | h | h | h <;> rw [h] <;> simp
      have hdT : jTruthy (JVal.str ds) = true := by simp [jTruthy, hd]
      unfold mapEventToIcalObject
      dsimp only
      rw [if_pos hiT, if_pos hdT]
      show (some (eex.foldl (fun acc kv => objSet acc (jsToUpper kv.1) kv.2)
          [(cs "UID", JVal.str i), (cs "SUMMARY", JVal.str s),
           (cs "DTSTART", JVal.str (formatToIcalDateTime (JSDate.mk u (tz.utcToLoc u)))),
           (cs "DTEND", JVal.str (formatToIcalDateTime (JSDate.mk w (tz.utcToLoc w)))),
           (cs "DESCRIPTION", JVal.str ds)])).bind (mapIcalObjectToEvent tz) = _
      rw [foldl_objSet_fresh eex _ hfresh hext2]
      show mapIcalObjectToEvent tz
          ([(cs "UID", JVal.str i), (cs "SUMMARY", JVal.str s),
            (cs "DTSTART", JVal.str (formatToIcalDateTime (JSDate.mk u (tz.utcToLoc u)))),
            (cs "DTEND", JVal.str (formatToIcalDateTime (JSDate.mk w (tz.utcToLoc w)))),
            (cs "DESCRIPTION", JVal.str ds)]
            ++ eex.map fun kv => (jsToUpper kv.1, kv.2)) = _
      rw [mapIcal_reverse_ns tz i s _ _ ds eex hd hext1 hext2,
        parseIcalDateTime_format tz u (tz.utcToLoc u) hu hu1 hu2,
        parseIcalDateTime_format tz w (tz.utcToLoc w) hw hw1 hw2]
      rfl
  · rcases hdesc with hDu | ⟨ds, hd, hDs⟩
    · subst hLs hDu
      have hfresh : ∀ kv ∈ eex, jsToUpper kv.1 ∉
          ([(cs "UID", JVal.str i), (cs "SUMMARY", JVal.str s),
            (cs "DTSTART", JVal.str (formatToIcalDateTime (JSDate.mk u (tz.utcToLoc u)))),
            (cs "DTEND", JVal.str (formatToIcalDateTime (JSDate.mk w (tz.utcToLoc w)))),
            (cs "LOCATION", JVal.str l)] : Obj).map Prod.fst := by
        intro kv hkv hmem
        apply hext1 kv hkv
        simp only [List.map_cons, List.map_nil, List.mem_cons,
          List.not_mem_nil, or_false] at hmem
        unfold reservedKeys
        rcases hmem with h | h | h | h | h <;> rw [h] <;> simp
      have hlT : jTruthy (JVal.str l) = true := by simp [jTruthy, hl]
      unfold mapEventToIcalObject
      dsimp only
      rw [if_pos hiT, if_pos hlT]
      show (some (eex.foldl (fun acc kv => objSet acc (jsToUpper kv.1) kv.2)
          [(cs "UID", JVal.str i), (cs "SUMMARY", JVal.str s),
           (cs "DTSTART", JVal.str (formatToIcalDateTime (JSDate.mk u (tz.utcToLoc u)))),
           (cs "DTEND", JVal.str (formatToIcalDateTime (JSDate.mk w (tz.utcToLoc w)))),
           (cs "LOCATION", JVal.str l)])).bind (mapIcalObjectToEvent tz) = _
      rw [foldl_objSet_fresh eex _ hfresh hext2]
      show mapIcalObjectToEvent tz
          ([(cs "UID", JVal.str i), (cs "SUMMARY", JVal.str s),
            (cs "DTSTART", JVal.str (formatToIcalDateTime (JSDate.mk u (tz.utcToLoc u)))),
            (cs "DTEND", JVal.str (formatToIcalDateTime (JSDate.mk w (tz.utcToLoc w)))),
            (cs "LOCATION", JVal.str l)]
            ++ eex.map fun kv => (jsToUpper kv.1, kv.2)) = _
      rw [mapIcal_reverse_sn tz i s _ _ l eex hl hext1 hext2,
        parseIcalDateTime_format tz u (tz.utcToLoc u) hu hu1 hu2,
        parseIcalDateTime_format tz w (tz.utcToLoc w) hw hw1 hw2]
      rfl
    · subst hLs hDs
      have hfresh : ∀ kv ∈ eex, jsToUpper kv.1 ∉
          ([(cs "UID", JVal.str i), (cs "SUMMARY", JVal.str s),
            (cs "DTSTART", JVal.str (formatToIcalDateTime (JSDate.mk u (tz.utcToLoc u)))),
            (cs "DTEND", JVal.str (formatToIcalDateTime (JSDate.mk w (tz.utcToLoc w)))),
            (cs "LOCATION", JVal.str l), (cs "DESCRIPTION", JVal.str ds)] :
            Obj).map Prod.fst := by
        intro kv hkv hmem
        apply hext1 kv hkv
        simp only [List.map_cons, List.map_nil, List.mem_cons,
          List.not_mem_nil, or_false] at hmem
        unfold reservedKeys
        rcases hmem with h | h | h | h | h | h <;> rw [h] <;> simp
      have hlT : jTruthy (JVal.str l) = true := by simp [jTruthy, hl]
      have hdT : jTruthy (JVal.str ds) = true := by simp [jTruthy, hd]
      unfold mapEventToIcalObject
      dsimp only
      rw [if_pos hiT, if_pos hlT, if_pos hdT]
      show (some (eex.foldl (fun acc kv => objSet acc (jsToUpper kv.1) kv.2)
          [(cs "UID", JVal.str i), (cs "SUMMARY", JVal.str s),
           (cs "DTSTART", JVal.str (formatToIcalDateTime (JSDate.mk u (tz.utcToLoc u)))),
           (cs "DTEND", JVal.str (formatToIcalDateTime (JSDate.mk w (tz.utcToLoc w)))),
           (cs "LOCATION", JVal.str l), (cs "DESCRIPTION", JVal.str ds)])).bind
        (mapIcalObjectToEvent tz) = _
      rw [foldl_objSet_fresh eex _ hfresh hext2]
      show mapIcalObjectToEvent tz
          ([(cs "UID", JVal.str i), (cs "SUMMARY", JVal.str s),
            (cs "DTSTART", JVal.str (formatToIcalDateTime (JSDate.mk u (tz.utcToLoc u)))),
            (cs "DTEND", JVal.str (formatToIcalDateTime (JSDate.mk w (tz.utcToLoc w)))),
            (cs "LOCATION", JVal.str l), (cs "DESCRIPTION", JVal.str ds)]
            ++ eex.map fun kv => (jsToUpper kv.1, kv.2)) = _
      rw [mapIcal_reverse_ss tz i s _ _ l ds eex hl hd hext1 hext2,
        parseIcalDateTime_format tz u (tz.utcToLoc u) hu hu1 hu2,
        parseIcalDateTime_format tz w (tz.utcToLoc w) hw hw1 hw2]
      rfl

/-! ### Claim theorems -/

/-- C1 (counterexample): the round trip fails, as stated, for a record
whose key contains a colon: `{"A:B": "c"}` serializes to the line
`A:B:c`, which parses back at the first colon as `{"A": "B:c"}`,
although the list is non-empty and every key and value is a non-empty
string. -/
theorem c1_counterexample :
    parseIcal (icalToString [[(cs "A:B", JVal.str (cs "c"))]]) =
        [[(cs "A", JVal.str (cs "B:c"))]] ∧
      parseIcal (icalToString [[(cs "A:B", JVal.str (cs "c"))]]) ≠
        [[(cs "A:B", JVal.str (cs "c"))]] := by
  decide

/-- C1 (amended): `parseIcal (icalToString records) = records` for every
non-empty list of string-valued records whose keys are distinct within
each record and whose pairs satisfy `C1Good` (non-empty,
trim-invariant, newline-free keys and values, colon-free keys, and no
collision with the `BEGIN:VEVENT` / `END:VEVENT` markers). -/
theorem c1_roundtrip (rs : List (List (List Char × List Char)))
    (hne : rs ≠ [])
    (h : ∀ r ∈ rs, (r.map Prod.fst).Nodup ∧ ∀ kv ∈ r, C1Good kv) :
    parseIcal (icalToString (rs.map toObj)) = rs.map toObj := by
  have hmap : (rs.map toObj).map evLines =
      rs.map fun r => BEGINV :: (r.map fun kv => kv.1 ++ ':' :: kv.2) ++ [ENDV] := by
    rw [List.map_map]
    apply List.map_congr_left
    intro r hr
    apply evLines_toObj r
    intro kv hkv
    obtain ⟨h1, _, _, _, h5, _, _, _, _⟩ := (h r hr).2 kv hkv
    exact ⟨h1, h5⟩
  have hLne :
      (rs.map fun r => BEGINV :: (r.map fun kv => kv.1 ++ ':' :: kv.2) ++ [ENDV]).flatten
        ≠ [] := by
    cases rs with
    | nil => exact absurd rfl hne
    | cons r rest => simp
  have hnl : ∀ l ∈ (rs.map fun r =>
      BEGINV :: (r.map fun kv => kv.1 ++ ':' :: kv.2) ++ [ENDV]).flatten, '\n' ∉ l := by
    intro l hl
    rw [List.mem_flatten] at hl
    obtain ⟨blk, hblk, hlblk⟩ := hl
    rw [List.mem_map] at hblk
    obtain ⟨r, hr, rfl⟩ := hblk
    rcases List.mem_cons.mp hlblk with rfl | hl2
    · decide
    rcases List.mem_append.mp hl2 with hl3 | hl4
    · rw [List.mem_map] at hl3
      obtain ⟨kv, hkv, rfl⟩ := hl3
      obtain ⟨_, _, _, hknl, _, _, hvnl, _, _⟩ := (h r hr).2 kv hkv
      intro hmem
      rcases List.mem_append.mp hmem with hk | hv2
      · exact hknl hk
      rcases List.mem_cons.mp hv2 with hc | hv3
      · exact absurd hc (by decide)
      · exact hvnl hv3
    · rw [List.mem_singleton] at hl4
      subst hl4
      decide
  unfold icalToString parseIcal
  rw [hmap, jsSplit_joinWith '\n' _ hLne hnl]
  unfold parseIcalLines
  rw [parse_blocks rs [] h]
  simp

theorem c1_roundtrip_witness :
    parseIcal (icalToString ([[(cs "SUMMARY", cs "Hello")],
        [(cs "K", cs "v")]].map toObj)) =
      [[(cs "SUMMARY", cs "Hello")], [(cs "K", cs "v")]].map toObj :=
  c1_roundtrip [[(cs "SUMMARY", cs "Hello")], [(cs "K", cs "v")]]
    (by decide) (by decide)

/-- C2 (counterexample): a nested `BEGIN:VEVENT` makes `parseIcal`
discard the open record rather than flush it: the properties collected
for the outer record (`A:1`) are absent from the output, which
contains only the inner record. -/
theorem c2_counterexample :
    parseIcal (cs "BEGIN:VEVENT\nA:1\nBEGIN:VEVENT\nB:2\nEND:VEVENT") =
        [[(cs "B", JVal.str (cs "2"))]] ∧
      parseIcal (cs "BEGIN:VEVENT\nA:1\nBEGIN:VEVENT\nB:2\nEND:VEVENT") ≠
        [[(cs "A", JVal.str (cs "1"))], [(cs "B", JVal.str (cs "2"))]] := by
  decide

/-- C2 (amended): when the `parseIcal` loop meets a line starting with
`BEGIN:VEVENT` while a record is open, the open record and every
property collected into it (including any marker-free lines processed
just before) are discarded, not flushed: the run continues exactly as
if a fresh empty record had just been opened, with the emitted list
unchanged. -/
theorem c2_nested_begin_discards (ev : Obj) (evts : List Obj)
    (props rest : List (List Char)) (b : List Char)
    (hb : jsStartsWith BEGINV b = true)
    (hprops : ∀ p ∈ props, jsStartsWith BEGINV p = false ∧ jsStartsWith ENDV p = false) :
    List.foldl parseStep (some ev, evts) (props ++ b :: rest) =
      List.foldl parseStep (some [], evts) rest := by
  rw [List.foldl_append]
  obtain ⟨ev', hev⟩ := foldl_parseStep_open props ev evts hprops
  rw [hev, List.foldl_cons, parseStep_begin _ b hb]

theorem c2_nested_begin_discards_witness :
    List.foldl parseStep (some [(cs "A", JVal.str (cs "1"))], [])
        ([cs "X:1"] ++ BEGINV :: [cs "END:VEVENT"]) =
      List.foldl parseStep (some [], []) [cs "END:VEVENT"] :=
  c2_nested_begin_discards [(cs "A", JVal.str (cs "1"))] [] [cs "X:1"]
    [cs "END:VEVENT"] BEGINV (by decide) (by decide)

/-- C3 (counterexample): the round trip does not hold for every Event:
for an Event without an `id` (modelled as an `undefined` field),
`mapEventToIcalObject` emits no `UID`, so `mapIcalObjectToEvent`
raises the `InvalidRecord` error (modelled as `none`) instead of
recovering `summary`, `start` and `end`. -/
theorem c3_counterexample :
    (mapEventToIcalObject
        (Event.mk JVal.undef (JVal.str (cs "S"))
          (JVal.date
            (JSDate.mk (DateComps.mk 2023 0 1 10 0 0) (DateComps.mk 2023 0 1 10 0 0)) [])
          (JVal.date
            (JSDate.mk (DateComps.mk 2023 0 1 11 0 0) (DateComps.mk 2023 0 1 11 0 0)) [])
          JVal.undef JVal.undef [])).bind (mapIcalObjectToEvent tzId) = none := by
  decide

theorem c3_event_roundtrip_witness :
    (mapEventToIcalObject
        (Event.mk (JVal.str (cs "u1")) (JVal.str (cs "S"))
          (JVal.date
            (JSDate.mk (DateComps.mk 2023 0 1 10 0 0) (DateComps.mk 2023 0 1 10 0 0)) [])
          (JVal.date
            (JSDate.mk (DateComps.mk 2023 0 1 11 0 0) (DateComps.mk 2023 0 1 11 0 0)) [])
          JVal.undef JVal.undef [(cs "customField", JVal.str (cs "value1"))])).bind
      (mapIcalObjectToEvent tzId) =
    some { Event.mk (JVal.str (cs "u1")) (JVal.str (cs "S"))
        (JVal.date
          (JSDate.mk (DateComps.mk 2023 0 1 10 0 0) (DateComps.mk 2023 0 1 10 0 0)) [])
        (JVal.date
          (JSDate.mk (DateComps.mk 2023 0 1 11 0 0) (DateComps.mk 2023 0 1 11 0 0)) [])
        JVal.undef JVal.undef [(cs "customField", JVal.str (cs "value1"))] with
      extra := [(cs "customField", JVal.str (cs "value1"))].map
        fun kv => (jsToUpper kv.1, kv.2) } :=
  c3_event_roundtrip tzId _ (cs "u1") (cs "S") (DateComps.mk 2023 0 1 10 0 0)
    (DateComps.mk 2023 0 1 11 0 0) rfl (by decide) rfl rfl (by decide) (by decide)
    (by decide) rfl (by decide) (by decide) (by decide)
    (Or.inl rfl) (Or.inl rfl)
    (by decide) (by decide)

/-- C4: when end of input is reached while a block is open (its line
starting with `BEGIN:VEVENT` was seen but no matching `END:VEVENT`),
`icalToWebDav` still emits that block, verbatim: the opening line with
all body lines accumulated so far, joined by newlines, appended after
the blocks already flushed. -/
theorem c4_eof_flush (L props : List (List Char)) (b : List Char)
    (hb : jsStartsWith BEGINV b = true)
    (hprops : ∀ p ∈ props, jsStartsWith BEGINV p = false ∧ jsStartsWith ENDV p = false) :
    icalToWebDavCore (L ++ b :: props) =
      icalToWebDavCore L ++ [joinWith '\n' (b :: props)] := by
  unfold icalToWebDavCore
  rw [List.foldl_append, List.foldl_cons, extractStep_begin _ b hb,
    foldl_extractStep_body props b _ hprops, joinWith_eq_head_append]
  rfl

theorem c4_eof_flush_witness :
    icalToWebDavCore ([] ++ BEGINV :: [cs "SUMMARY:Incomplete"]) =
      icalToWebDavCore [] ++ [joinWith '\n' (BEGINV :: [cs "SUMMARY:Incomplete"])] :=
  c4_eof_flush [] [cs "SUMMARY:Incomplete"] BEGINV (by decide) (by decide)

/-- C5 (counterexample): a line whose key is whitespace-only is not
skipped: ` :x` has an empty trimmed key, yet `parseIcal` records the
property under the empty-string key, because the guard tests the
untrimmed key. -/
theorem c5_counterexample :
    parseIcal (cs "BEGIN:VEVENT\n :x\nEND:VEVENT") =
        [[(([] : List Char), JVal.str (cs "x"))]] ∧
      jsTrim (cs " ") = [] ∧
      parseIcal (cs "BEGIN:VEVENT\n :x\nEND:VEVENT") ≠ [[]] := by
  decide

/-- C5 (amended): while a record is open, a line is split at its first
colon - for a line `k ++ ":" ++ v` with colon-free `k`, the key is
`k` trimmed and the value is all of `v` (which may contain colons)
trimmed - and the pair is recorded if and only if the UNTRIMMED key
and the trimmed value are non-empty (so a whitespace-only key is
recorded, under the empty-string key); a line with no colon
contributes nothing. -/
theorem c5_first_colon_split (ev : Obj) (evts : List Obj) :
    (∀ k v : List Char, ':' ∉ k →
        jsStartsWith BEGINV (k ++ ':' :: v) = false →
        jsStartsWith ENDV (k ++ ':' :: v) = false →
        parseStep (some ev, evts) (k ++ ':' :: v) =
          (some (if k ≠ [] ∧ jsTrim v ≠ [] then
            objSet ev (jsTrim k) (JVal.str (jsTrim v)) else ev), evts)) ∧
      (∀ l : List Char, ':' ∉ l →
        jsStartsWith BEGINV l = false → jsStartsWith ENDV l = false →
        parseStep (some ev, evts) l = (some ev, evts)) :=
  ⟨fun k v hk hb he => parseStep_keyval ev evts k v hk hb he,
   fun l hl hb he => parseStep_nocolon ev evts l hl hb he⟩

theorem c5_first_colon_split_witness :
    parseStep (some [], []) (cs "KEY" ++ ':' :: cs " a:b ") =
      (some (if cs "KEY" ≠ [] ∧ jsTrim (cs " a:b ") ≠ [] then
        objSet [] (jsTrim (cs "KEY")) (JVal.str (jsTrim (cs " a:b "))) else []), []) :=
  (c5_first_colon_split [] []).1 (cs "KEY") (cs " a:b ")
    (by decide) (by decide) (by decide)

/-- C6 (counterexample): the year is not zero-padded: a valid Date with
UTC year 50 renders as `500101T000000Z`, whose year component has two
digits, not four; the fully padded rendering the claim describes
would be `00500101T000000Z`. -/
theorem c6_counterexample :
    ValidComps (DateComps.mk 50 0 1 0 0 0) ∧
      formatToIcalDateTime
          (JSDate.mk (DateComps.mk 50 0 1 0 0 0) (DateComps.mk 50 0 1 0 0 0)) false =
        cs "500101T000000Z" ∧
      formatToIcalDateTime
          (JSDate.mk (DateComps.mk 50 0 1 0 0 0) (DateComps.mk 50 0 1 0 0 0)) false ≠
        icalDateTimeSpecPadded
          (JSDate.mk (DateComps.mk 50 0 1 0 0 0) (DateComps.mk 50 0 1 0 0 0)) false := by
  refine ⟨by decide, by decide, by decide⟩

/-- C6 (amended): month, day, hour, minute and second are always
zero-padded to two digits, but the year is rendered by `toString`
without padding; the fully zero-padded fixed-width shape the claim
describes is produced exactly when the year already has four digits,
i.e. for years 1000 to 9999 (in the UTC getters for the default
rendering and in the local getters for the local-time rendering). -/
theorem c6_fixed_width (u l : DateComps) (hu : ValidComps u) (hl : ValidComps l)
    (hu1 : 1000 ≤ u.year) (hu2 : u.year ≤ 9999)
    (hl1 : 1000 ≤ l.year) (hl2 : l.year ≤ 9999) :
    formatToIcalDateTime (JSDate.mk u l) false =
        icalDateTimeSpecPadded (JSDate.mk u l) false ∧
      formatToIcalDateTime (JSDate.mk u l) true =
        icalDateTimeSpecPadded (JSDate.mk u l) true := by
  have key : ∀ c : DateComps, 1000 ≤ c.year → c.year ≤ 9999 →
      padTo 4 (numStr (some c.year)) = numStr (some c.year) := by
    intro c h1 h2
    have hlen : (numStr (some c.year)).length = 4 := by
      show (intToJStr c.year).length = 4
      rw [intToJStr_nonneg _ (by omega)]
      exact natDigits_length_four _ (by omega) (by omega)
    unfold padTo
    rw [if_neg (by omega)]
  constructor
  · unfold formatToIcalDateTime icalDateTimeSpecPadded
    simp only [getUTCComps, getLocComps, Option.map_some', Bool.false_eq_true,
      if_false, if_true]
    rw [key u hu1 hu2]
  · unfold formatToIcalDateTime icalDateTimeSpecPadded
    simp only [getUTCComps, getLocComps, Option.map_some', Bool.false_eq_true,
      if_false, if_true]
    rw [key l hl1 hl2]

theorem c6_fixed_width_witness :
    formatToIcalDateTime
        (JSDate.mk (DateComps.mk 2023 0 1 10 30 15) (DateComps.mk 2023 0 1 10 30 15))
        false =
      icalDateTimeSpecPadded
        (JSDate.mk (DateComps.mk 2023 0 1 10 30 15) (DateComps.mk 2023 0 1 10 30 15))
        false :=
  (c6_fixed_width (DateComps.mk 2023 0 1 10 30 15) (DateComps.mk 2023 0 1 10 30 15)
    (by decide) (by decide) (by decide) (by decide) (by decide) (by decide)).1

/-- The type requirements `mapIcalObjectToEvent` checks before building
an Event, stated as the claim states them. -/
def RecordGuard (o : Obj) : Prop :=
  isStr (objGet o (cs "UID")) = true ∧
    isStr (objGet o (cs "SUMMARY")) = true ∧
    isStr (objGet o (cs "DTSTART")) = true ∧
    isStr (objGet o (cs "DTEND")) = true ∧
    isStrOrUndef (objGet o (cs "LOCATION")) = true ∧
    isStrOrUndef (objGet o (cs "DESCRIPTION")) = true

instance (o : Obj) : Decidable (RecordGuard o) := by
  unfold RecordGuard; infer_instance

/-- C7 (counterexample): the claim fails on a guard-passing record that
also carries a key literally named `id`: the custom-field copy loop
(ical.ts lines 203-216) assigns every non-reserved key onto the same
event object, so the record value at `id` overwrites the `UID`-derived
field.  The guard passes, yet the returned Event has `id` equal to the
record value `z`, not to the record's `UID` value `u`. -/
theorem c7_counterexample :
    RecordGuard
        [(cs "UID", JVal.str (cs "u")), (cs "SUMMARY", JVal.str (cs "s")),
         (cs "DTSTART", JVal.str (cs "20230101T100000Z")),
         (cs "DTEND", JVal.str (cs "20230101T110000Z")),
         (cs "id", JVal.str (cs "z"))] ∧
      (mapIcalObjectToEvent tzId
          [(cs "UID", JVal.str (cs "u")), (cs "SUMMARY", JVal.str (cs "s")),
           (cs "DTSTART", JVal.str (cs "20230101T100000Z")),
           (cs "DTEND", JVal.str (cs "20230101T110000Z")),
           (cs "id", JVal.str (cs "z"))]).map Event.id = some (JVal.str (cs "z")) ∧
      objGet
          [(cs "UID", JVal.str (cs "u")), (cs "SUMMARY", JVal.str (cs "s")),
           (cs "DTSTART", JVal.str (cs "20230101T100000Z")),
           (cs "DTEND", JVal.str (cs "20230101T110000Z")),
           (cs "id", JVal.str (cs "z"))] (cs "UID") = JVal.str (cs "u") ∧
      JVal.str (cs "z") ≠ JVal.str (cs "u") := by
  decide

/-- C7 (amended): `mapIcalObjectToEvent` raises `InvalidRecord`
(modelled as `none`) if and only if one of `UID`, `SUMMARY`,
`DTSTART`, `DTEND` is missing or not a string, or
`LOCATION`/`DESCRIPTION` is present with a non-string type; on a
record meeting the type requirements it returns an Event whose `id`
is the record's `UID` value and whose `summary` is the record's
`SUMMARY` value - provided the record has no key literally named
`id` (respectively `summary`), since the custom-field copy loop
assigns such a key onto the same event object, overwriting the
mapped field. -/
theorem c7_invalid_record (tz : Tz) (o : Obj) :
    ((mapIcalObjectToEvent tz o).isSome = true ↔ RecordGuard o) ∧
      ∀ e, mapIcalObjectToEvent tz o = some e →
        (cs "id" ∉ o.map Prod.fst → e.id = objGet o (cs "UID")) ∧
        (cs "summary" ∉ o.map Prod.fst → e.summary = objGet o (cs "SUMMARY")) := by
  unfold mapIcalObjectToEvent RecordGuard
  by_cases hg : isStr (objGet o (cs "UID")) = true ∧
      isStr (objGet o (cs "SUMMARY")) = true ∧
      isStr (objGet o (cs "DTSTART")) = true ∧
      isStr (objGet o (cs "DTEND")) = true ∧
      isStrOrUndef (objGet o (cs "LOCATION")) = true ∧
      isStrOrUndef (objGet o (cs "DESCRIPTION")) = true
  · rw [if_pos hg]
    refine ⟨by simp [hg], ?_⟩
    intro e he
    rw [Option.some.injEq] at he
    subst he
    constructor
    · intro hnid
      rw [foldAssign_id o _ hnid]
    · intro hns
      rw [foldAssign_summary o _ hns]
  · rw [if_neg hg]
    refine ⟨by simp [hg], ?_⟩
    intro e he
    exact absurd he (by simp)

theorem c7_invalid_record_witness :
    ((mapIcalObjectToEvent tzId
        [(cs "UID", JVal.str (cs "e1")), (cs "SUMMARY", JVal.str (cs "S")),
         (cs "DTSTART", JVal.str (cs "20230101T100000Z")),
         (cs "DTEND", JVal.str (cs "20230101T110000Z"))]).isSome = true) ∧
      (Event.mk (JVal.str (cs "e1")) (JVal.str (cs "S"))
          (JVal.date
            (JSDate.mk (DateComps.mk 2023 0 1 10 0 0) (DateComps.mk 2023 0 1 10 0 0)) [])
          (JVal.date
            (JSDate.mk (DateComps.mk 2023 0 1 11 0 0) (DateComps.mk 2023 0 1 11 0 0)) [])
          JVal.undef JVal.undef []).id =
        objGet
          [(cs "UID", JVal.str (cs "e1")), (cs "SUMMARY", JVal.str (cs "S")),
           (cs "DTSTART", JVal.str (cs "20230101T100000Z")),
           (cs "DTEND", JVal.str (cs "20230101T110000Z"))] (cs "UID") :=
  ⟨((c7_invalid_record tzId
      [(cs "UID", JVal.str (cs "e1")), (cs "SUMMARY", JVal.str (cs "S")),
       (cs "DTSTART", JVal.str (cs "20230101T100000Z")),
       (cs "DTEND", JVal.str (cs "20230101T110000Z"))]).1).mpr (by decide),
   ((c7_invalid_record tzId
      [(cs "UID", JVal.str (cs "e1")), (cs "SUMMARY", JVal.str (cs "S")),
       (cs "DTSTART", JVal.str (cs "20230101T100000Z")),
       (cs "DTEND", JVal.str (cs "20230101T110000Z"))]).2
      (Event.mk (JVal.str (cs "e1")) (JVal.str (cs "S"))
        (JVal.date
          (JSDate.mk (DateComps.mk 2023 0 1 10 0 0) (DateComps.mk 2023 0 1 10 0 0)) [])
        (JVal.date
          (JSDate.mk (DateComps.mk 2023 0 1 11 0 0) (DateComps.mk 2023 0 1 11 0 0)) [])
        JVal.undef JVal.undef [])
      (by decide)).1 (by decide)⟩

/-- C8: the source duplicates each function of the three pairs verbatim,
so the pairs are extensionally equal: `icalToWebDav` ignores its
`baseUrl` and agrees with `webDavToIcal`, `parseIcal` agrees with
`parseWebDav`, and `icalToString` agrees with `webDavToString` on all
inputs. -/
theorem c8_pairs_extensionally_equal :
    (∀ s b, icalToWebDav s b = webDavToIcal s) ∧
      (∀ s, parseIcal s = parseWebDav s) ∧
      (∀ r, icalToString r = webDavToString r) :=
  ⟨fun _ _ => rfl, fun _ => rfl, fun _ => rfl⟩

/-- C9: a record opened by `parseIcal` that is still open at end of
input is discarded: appending `BEGIN:VEVENT` and then any marker-free
tail to an input leaves the parse result unchanged, so no record from
an unterminated block ever appears in the output. -/
theorem c9_open_record_discarded (s t : List Char)
    (h : ∀ l ∈ jsSplit '\n' t,
      jsStartsWith BEGINV l = false ∧ jsStartsWith ENDV l = false) :
    parseIcal (s ++ '\n' :: (BEGINV ++ '\n' :: t)) = parseIcal s := by
  unfold parseIcal parseIcalLines
  rw [jsSplit_append, jsSplit_append, jsSplit_of_not_mem '\n' BEGINV (by decide),
    List.foldl_append, List.singleton_append, List.foldl_cons,
    parseStep_begin _ BEGINV jsStartsWith_BEGINV_self]
  obtain ⟨ev', hev⟩ := foldl_parseStep_open (jsSplit '\n' t) []
    (List.foldl parseStep (none, []) (jsSplit '\n' s)).2 h
  rw [hev]

theorem c9_open_record_discarded_witness :
    parseIcal (cs "BEGIN:VEVENT\nA:1\nEND:VEVENT" ++ '\n' :: (BEGINV ++ '\n' :: cs "B:2")) =
      parseIcal (cs "BEGIN:VEVENT\nA:1\nEND:VEVENT") :=
  c9_open_record_discarded (cs "BEGIN:VEVENT\nA:1\nEND:VEVENT") (cs "B:2") (by decide)

/-- C10: `icalToWebDav` never reads its `baseUrl` parameter, so any two
base URLs produce the same output on every input (two-run
noninterference in the second argument). -/
theorem c10_baseUrl_noninterference :
    ∀ (s b1 b2 : List Char), icalToWebDav s b1 = icalToWebDav s b2 :=
  fun _ _ _ => rfl

end Dav
